import Mathlib

/-!
Verification development for the configuration-driven estimation engine of the
`website--cost-calculator` repository (`src/lib/estimate.ts`, v0.4.1).

The TypeScript engine is shallowly embedded below.  JavaScript numbers are
modelled by `ℚ` (every number occurring in the JSON-sourced configurations and
in the engine's arithmetic is finite); `NaN` is kept as a distinguished
selection *value* (`Val.nan`), and each site that can produce a non-finite
parse result models it with `Option ℚ` (`none` = not a finite number), exactly
mirroring the source's `Number.isNaN` / `isFinite` / `|| 0` handling.
Selection maps (`Record<string, any>`) are association lists with first-match
lookup; an absent key and a key holding `undefined`/`null` are both modelled
by `Val.undef`, which is how the engine observes them (`??`, `== null`, `===`
against primitives).  JavaScript object identity on composite values is
modelled by structural equality.
-/

namespace Estimate

/-- The closed role set of the engine (`type Role`). -/
inductive Role where
  | design | frontend | backend | pm | qa | devops | seo | content
deriving DecidableEq, Repr

/-- `const ROLES` from the source. -/
def ROLES : List Role :=
  [.design, .frontend, .backend, .pm, .qa, .devops, .seo, .content]

/-- `const BUILD_ROLES` from the source (all roles except pm and qa). -/
def BUILD_ROLES : List Role :=
  [.design, .frontend, .backend, .devops, .seo, .content]

/-- The string key a role uses in JS objects (`hours.<role>`, `_roleAdjust`). -/
def roleKey : Role → String
  | .design => "design" | .frontend => "frontend" | .backend => "backend"
  | .pm => "pm" | .qa => "qa" | .devops => "devops"
  | .seo => "seo" | .content => "content"

/-- Parse a role name, as done by `key.split(".")[1] as Role`; a string that
names no role creates a property outside `ROLES` that no later computation
reads, so it is dropped here. -/
def parseRole (s : String) : Option Role :=
  if s = "design" then some .design
  else if s = "frontend" then some .frontend
  else if s = "backend" then some .backend
  else if s = "pm" then some .pm
  else if s = "qa" then some .qa
  else if s = "devops" then some .devops
  else if s = "seo" then some .seo
  else if s = "content" then some .content
  else none

/-- JavaScript runtime values as they occur in `Selections`/option objects. -/
inductive Val where
  | str (s : String)
  | num (q : ℚ)
  | nan
  | bool (b : Bool)
  | arr (vs : List Val)
  | obj (kvs : List (String × Val))
  | undef
deriving Repr

mutual

def Val.decEq : (a b : Val) → Decidable (a = b)
  | .str a, .str b =>
      if h : a = b then isTrue (by rw [h])
      else isFalse (by intro hh; cases hh; exact h rfl)
  | .num a, .num b =>
      if h : a = b then isTrue (by rw [h])
      else isFalse (by intro hh; cases hh; exact h rfl)
  | .nan, .nan => isTrue rfl
  | .bool a, .bool b =>
      if h : a = b then isTrue (by rw [h])
      else isFalse (by intro hh; cases hh; exact h rfl)
  | .arr a, .arr b =>
      match Val.decEqList a b with
      | isTrue h => isTrue (by rw [h])
      | isFalse h => isFalse (by intro hh; cases hh; exact h rfl)
  | .obj a, .obj b =>
      match Val.decEqKV a b with
      | isTrue h => isTrue (by rw [h])
      | isFalse h => isFalse (by intro hh; cases hh; exact h rfl)
  | Val.undef, Val.undef => isTrue rfl
  | .str _, .num _ => isFalse (by intro h; cases h)
  | .str _, .nan => isFalse (by intro h; cases h)
  | .str _, .bool _ => isFalse (by intro h; cases h)
  | .str _, .arr _ => isFalse (by intro h; cases h)
  | .str _, .obj _ => isFalse (by intro h; cases h)
  | .str _, Val.undef => isFalse (by intro h; cases h)
  | .num _, .str _ => isFalse (by intro h; cases h)
  | .num _, .nan => isFalse (by intro h; cases h)
  | .num _, .bool _ => isFalse (by intro h; cases h)
  | .num _, .arr _ => isFalse (by intro h; cases h)
  | .num _, .obj _ => isFalse (by intro h; cases h)
  | .num _, Val.undef => isFalse (by intro h; cases h)
  | .nan, .str _ => isFalse (by intro h; cases h)
  | .nan, .num _ => isFalse (by intro h; cases h)
  | .nan, .bool _ => isFalse (by intro h; cases h)
  | .nan, .arr _ => isFalse (by intro h; cases h)
  | .nan, .obj _ => isFalse (by intro h; cases h)
  | .nan, Val.undef => isFalse (by intro h; cases h)
  | .bool _, .str _ => isFalse (by intro h; cases h)
  | .bool _, .num _ => isFalse (by intro h; cases h)
  | .bool _, .nan => isFalse (by intro h; cases h)
  | .bool _, .arr _ => isFalse (by intro h; cases h)
  | .bool _, .obj _ => isFalse (by intro h; cases h)
  | .bool _, Val.undef => isFalse (by intro h; cases h)
  | .arr _, .str _ => isFalse (by intro h; cases h)
  | .arr _, .num _ => isFalse (by intro h; cases h)
  | .arr _, .nan => isFalse (by intro h; cases h)
  | .arr _, .bool _ => isFalse (by intro h; cases h)
  | .arr _, .obj _ => isFalse (by intro h; cases h)
  | .arr _, Val.undef => isFalse (by intro h; cases h)
  | .obj _, .str _ => isFalse (by intro h; cases h)
  | .obj _, .num _ => isFalse (by intro h; cases h)
  | .obj _, .nan => isFalse (by intro h; cases h)
  | .obj _, .bool _ => isFalse (by intro h; cases h)
  | .obj _, .arr _ => isFalse (by intro h; cases h)
  | .obj _, Val.undef => isFalse (by intro h; cases h)
  | Val.undef, .str _ => isFalse (by intro h; cases h)
  | Val.undef, .num _ => isFalse (by intro h; cases h)
  | Val.undef, .nan => isFalse (by intro h; cases h)
  | Val.undef, .bool _ => isFalse (by intro h; cases h)
  | Val.undef, .arr _ => isFalse (by intro h; cases h)
  | Val.undef, .obj _ => isFalse (by intro h; cases h)

def Val.decEqList : (a b : List Val) → Decidable (a = b)
  | [], [] => isTrue rfl
  | [], _ :: _ => isFalse (by intro h; cases h)
  | _ :: _, [] => isFalse (by intro h; cases h)
  | a :: as, b :: bs =>
      match Val.decEq a b, Val.decEqList as bs with
      | isTrue h1, isTrue h2 => isTrue (by rw [h1, h2])
      | isFalse h1, _ => isFalse (by intro hh; injection hh with e1 e2; exact h1 e1)
      | _, isFalse h2 => isFalse (by intro hh; injection hh with e1 e2; exact h2 e2)

def Val.decEqKV : (a b : List (String × Val)) → Decidable (a = b)
  | [], [] => isTrue rfl
  | [], _ :: _ => isFalse (by intro h; cases h)
  | _ :: _, [] => isFalse (by intro h; cases h)
  | (k, v) :: as, (k', v') :: bs =>
      match String.decEq k k', Val.decEq v v', Val.decEqKV as bs with
      | isTrue h0, isTrue h1, isTrue h2 => isTrue (by rw [h0, h1, h2])
      | isFalse h0, _, _ =>
          isFalse (by
            intro hh; injection hh with e1 e2
            exact h0 (congrArg Prod.fst e1))
      | _, isFalse h1, _ =>
          isFalse (by
            intro hh; injection hh with e1 e2
            exact h1 (congrArg Prod.snd e1))
      | _, _, isFalse h2 =>
          isFalse (by intro hh; injection hh with e1 e2; exact h2 e2)

end

instance : DecidableEq Val := Val.decEq

/-- The `string | number | boolean` type of `equals` fields. -/
inductive Prim where
  | str (s : String)
  | num (q : ℚ)
  | bool (b : Bool)
deriving DecidableEq, Repr

/-- JS strict equality `===` between a runtime value and a primitive. -/
def jsEqP (v : Val) (p : Prim) : Bool :=
  match v, p with
  | .str a, .str b => a = b
  | .num a, .num b => a = b
  | .bool a, .bool b => a = b
  | _, _ => false

/-- JS strict equality `===` between two runtime values.  `NaN` is never equal
to anything; identity of composite values is modelled structurally. -/
def jsEqV (a b : Val) : Bool :=
  match a, b with
  | .nan, _ => false
  | _, .nan => false
  | a, b => decide (a = b)

/-- Digit-string value, `none` when the string is empty or has a non-digit. -/
def digitsVal (s : String) : Option ℕ :=
  if s ≠ "" ∧ s.all Char.isDigit then
    some (s.foldl (fun n c => n * 10 + (c.toNat - 48)) 0)
  else none

/-- `Number(string)` on the decimal literals that occur in this code base:
optional sign, optional integer part, optional fraction part; whitespace-only
is 0; anything else (including exponents and `Infinity`) is treated as not a
finite number. -/
def jsParseNum (s : String) : Option ℚ :=
  let t := s.trim
  if t = "" then some 0
  else
    let (neg, body) :=
      if t.startsWith "-" then (true, t.drop 1)
      else if t.startsWith "+" then (false, t.drop 1) else (false, t)
    let signed (q : ℚ) : ℚ := if neg then -q else q
    match body.splitOn "." with
    | [a] => (digitsVal a).map (fun n => signed n)
    | [a, b] =>
        if a = "" ∧ b = "" then none
        else
          match (if a = "" then some 0 else digitsVal a),
                (if b = "" then some 0 else digitsVal b) with
          | some i, some f =>
              some (signed ((i : ℚ) + (f : ℚ) / ((10 : ℚ) ^ b.length)))
          | _, _ => none
    | _ => none

/-- `Number(value)`: `none` models a non-finite result (`NaN`). -/
def toNum : Val → Option ℚ
  | .num q => some q
  | .nan => none
  | .bool b => some (if b then 1 else 0)
  | .str s => jsParseNum s
  | .arr [] => some 0
  | .arr [.num q] => some q
  | .arr [.str s] => jsParseNum s
  | .arr _ => none
  | .obj _ => none
  | Val.undef => none

/-- `String(value)` for the values this engine converts (country codes).
Rationals render through `toString`; nested arrays are flattened one level. -/
def jsToString : Val → String
  | .str s => s
  | .num q => toString q
  | .nan => "NaN"
  | .bool b => if b then "true" else "false"
  | Val.undef => "undefined"
  | .obj _ => "[object Object]"
  | .arr vs =>
      String.intercalate ","
        (vs.map fun v =>
          match v with
          | .str s => s
          | .num q => toString q
          | .nan => "NaN"
          | .bool b => if b then "true" else "false"
          | Val.undef => ""
          | .obj _ => "[object Object]"
          | .arr _ => "")

/-- The nullish-coalescing operator `a ?? b` (`undefined`/`null` both map to
`Val.undef` in this model). -/
def nvl (v d : Val) : Val := if v = Val.undef then d else v

/-- Selection maps: association lists with first-match lookup. -/
abbrev Selections := List (String × Val)

/-- Property read `selections[k]`; an absent key reads as `undefined`. -/
def lookupVal : Selections → String → Val
  | [], _ => Val.undef
  | (k, v) :: rest, key => if k = key then v else lookupVal rest key

/-- Property write `{ ...s, [k]: v }` observed through `lookupVal`: replace the
first binding of `k`, or append one. -/
def setKey : Selections → String → Val → Selections
  | [], k, v => [(k, v)]
  | (k', v') :: rest, k, v =>
      if k' = k then (k, v) :: rest else (k', v') :: setKey rest k v

/-- Property read on a `Val` that may not be an object (`x?.[k]`). -/
def objGet (v : Val) (k : String) : Val :=
  match v with
  | .obj kvs =>
      match kvs.find? (fun kv => kv.1 = k) with
      | some kv => kv.2
      | none => Val.undef
  | _ => Val.undef

/-- `Math.round`: round half toward positive infinity (`⌊x + 1/2⌋`). -/
def jsRound (q : ℚ) : ℤ := (q + 1/2).floor

/-- `q ^ n` by plain structural recursion (kernel-friendly). -/
def powNat (q : ℚ) : ℕ → ℚ
  | 0 => 1
  | n + 1 => powNat q n * q

/-- `Math.pow(10, places)` for an integer number of places. -/
def pow10 : ℤ → ℚ
  | .ofNat n => powNat 10 n
  | .negSucc n => 1 / powNat 10 (n + 1)

/-- `round(n, places)` from the source: `Math.round(n * 10^p) / 10^p`. -/
def roundTo (q : ℚ) (places : ℤ) : ℚ :=
  let p : ℚ := pow10 places
  ((jsRound (q * p) : ℚ)) / p

/-! ## The configuration data model (`type Country`, `Lever`, `Config`, ...)

Fields the engine never reads (`name`, `help`, `group`, `unit`, `label`,
`maxSelected`, `fxToEUR`, `maintenance`, `presets`, `assumptions`,
`exclusions`, `showBands`, `allowBlendedRate`, `ui.groups`, `fullstack` rates,
`then.show` of a dependency) are either kept as inert data or omitted; the
optional `ui.pricing` / `globalOverheads` / `outputConfig` wrappers are
flattened into optional fields of `Config`. -/

/-- `tax: { vatIncluded, vatPercent }` of a country. -/
structure Tax where
  vatIncluded : Bool
  vatPercent : ℚ
deriving DecidableEq, Repr

/-- `type Country`.  `baseRates` is a partial role map (`rates[r] ?? 0` in the
source allows missing entries); `currency` is optional because the engine
guards it with `?? config.currencyDefault`. -/
structure Country where
  code : String
  name : String
  currency : Option String
  baseRates : Role → Option ℚ
  tax : Tax

/-- `type VisibleWhenRule = { id; equals: string | number | boolean }`. -/
structure VisibleWhenRule where
  id : String
  equals : Prim

/-- `type Dependency`; `if`/`then` are flattened (`if` is a Lean keyword) and
the optional `then`, `hide`, `adjust`, `show` lists default to `[]`, which is
how `?? []` reads them.  `thenShow` is never read by the engine. -/
structure Dependency where
  ifId : String
  ifEquals : Prim
  thenHide : List String
  thenAdjust : List (String × Val)
  thenShow : List String

/-- The shared lever fields (`type LeverCommon`). -/
structure LeverCommon where
  id : String
  label : String
  visibleWhen : List VisibleWhenRule

/-- An option of a select/multiselect lever: `{ value, label }` plus arbitrary
further keys (`hours.<role>`, `multiplier.<role|all>`, ...). -/
structure OptionEntry where
  value : String
  label : String
  extra : List (String × Val)

/-- `hoursPerBatch`: `{ batchSize } & Partial<Record<Role, number>>`. -/
structure BatchRule where
  batchSize : ℚ
  roleHours : Role → Option ℚ

/-- `type Lever`: select / multiselect / number. -/
inductive Lever where
  | select (common : LeverCommon) (options : List OptionEntry)
      (default : Option String)
  | multiselect (common : LeverCommon) (options : List OptionEntry)
  | number (common : LeverCommon) (min max default : Option ℚ)
      (hoursPerUnit : Option (Role → Option ℚ))
      (hoursPerBatch : Option BatchRule)
      (hoursBase : Option (Role → Option ℚ))
      (hoursPerExtraLocale : Option (Role → Option ℚ))

/-- The lever's id. -/
def Lever.id : Lever → String
  | .select c _ _ => c.id
  | .multiselect c _ => c.id
  | .number c _ _ _ _ _ _ _ => c.id

/-- The lever's `visibleWhen` rules (`[]` when absent). -/
def Lever.visibleWhen : Lever → List VisibleWhenRule
  | .select c _ _ => c.visibleWhen
  | .multiselect c _ => c.visibleWhen
  | .number c _ _ _ _ _ _ _ => c.visibleWhen

/-- `(lever as any).default`, as the seeding loop reads it: a string for a
select lever, a number for a number lever, absent for a multiselect. -/
def Lever.seedDefault : Lever → Option Val
  | .select _ _ d => d.map .str
  | .multiselect _ _ => none
  | .number _ _ _ d _ _ _ _ => d.map .num

/-- Whether the lever is a multiselect (for the `[]` seeding rule). -/
def Lever.isMultiselect : Lever → Bool
  | .multiselect _ _ => true
  | _ => false

/-- `contingencyRiskBands: { low, medium, high }`; the fields are optional
because the engine reads them through `?? 0.12` and the shipped reference
configuration omits some of them. -/
structure RiskBands where
  low : Option ℚ
  medium : Option ℚ
  high : Option ℚ
deriving DecidableEq, Repr

/-- `type Config`, restricted to the fields the engine reads.
`currencies` maps a currency code to its symbol;
`uiDefaultRateMode`/`uiDefaultBlendedRate` flatten `config.ui?.pricing?`;
`pmPercentOfBuild`/`qaPercentOfBuild`/`contingencyRiskBands` flatten
`config.globalOverheads`; `roundHours`/`roundCurrency` flatten
`config.outputConfig?.rounding?`. -/
structure Config where
  currencyDefault : String
  currencies : List (String × String)
  uiDefaultRateMode : Option String
  uiDefaultBlendedRate : Option ℚ
  countries : List Country
  pmPercentOfBuild : ℚ
  qaPercentOfBuild : ℚ
  contingencyRiskBands : RiskBands
  levers : List Lever
  dependencies : List Dependency
  roundHours : Option ℤ
  roundCurrency : Option ℤ

/-! ## Small engine helpers (`currencySymbolFor`, `clamp`, `visibleForLever`,
`addHours`, `applyMultiplierHours`) -/

/-- `currencySymbolFor` including the truthiness check `if (sym)` (an empty
symbol string is falsy and falls through). -/
def currencySymbolFor (config : Config) (currencyCode : String) : String :=
  let sym := (config.currencies.find? (fun kv => kv.1 = currencyCode)).map
    (fun kv => kv.2)
  match sym with
  | some s =>
      if s ≠ "" then s
      else if currencyCode = "EUR" then "€"
      else if currencyCode = "USD" then "$"
      else if currencyCode = "GBP" then "£"
      else currencyCode
  | none =>
      if currencyCode = "EUR" then "€"
      else if currencyCode = "USD" then "$"
      else if currencyCode = "GBP" then "£"
      else currencyCode

/-- `clamp(n, min, max)`; the argument is the `Option ℚ` result of a
`Number(...)` conversion, `none` standing for `NaN`. -/
def clamp (n : Option ℚ) (min max : Option ℚ) : ℚ :=
  match n with
  | none => min.getD 0
  | some q =>
      match min with
      | some m =>
          if q < m then m
          else match max with
            | some mx => if q > mx then mx else q
            | none => q
      | none =>
          match max with
          | some mx => if q > mx then mx else q
          | none => q

/-- `visibleForLever(lever, selections)`: conjunction of strict-equality
rules; a lever with no rules is always visible. -/
def visibleForLever (lever : Lever) (selections : Selections) : Bool :=
  lever.visibleWhen.all (fun r => jsEqP (lookupVal selections r.id) r.equals)

/-- `addHours(target, add, factor)` as a pure map update. -/
def addHours (target : Role → ℚ) (add : Role → Option ℚ) (factor : ℚ) :
    Role → ℚ :=
  fun r => target r + (match add r with | some v => v * factor | none => 0)

/-- The collected multipliers: a JS object keyed by the raw
`key.split(".")[1]` strings (which may include `"all"` or stray keys). -/
abbrev Multipliers := List (String × ℚ)

/-- Read `multipliers[k]`. -/
def mGet : Multipliers → String → Option ℚ
  | [], _ => none
  | (k', q) :: rest, k => if k' = k then some q else mGet rest k

/-- Write `multipliers[k] = q` (updating a key keeps its position, as in a JS
object). -/
def mSet : Multipliers → String → ℚ → Multipliers
  | [], k, q => [(k, q)]
  | (k', q') :: rest, k, q =>
      if k' = k then (k, q) :: rest else (k', q') :: mSet rest k q

/-- `applyMultiplierHours(hours, multipliers)`:
`hours[r] *= (multipliers[r] ?? 1) * (multipliers["all"] ?? 1)`. -/
def applyMultiplierHours (hours : Role → ℚ) (m : Multipliers) : Role → ℚ :=
  fun r => hours r * ((mGet m (roleKey r)).getD 1 * (mGet m "all").getD 1)

/-! ## Dependency resolver (`applyDependencies`) -/

/-- Insert into the hidden-id `Set` (insertion-ordered, deduplicating). -/
def insertUnique (l : List String) (id : String) : List String :=
  if l.contains id then l else l ++ [id]

/-- The working state of one resolver pass. -/
structure PassState where
  selections : Selections
  hidden : List String
  changed : Bool

/-- The `adjust` loop of one dependency whose `if` condition holds: overwrite
each target that is not already strictly equal to the forced value. -/
def adjustFold : List (String × Val) → Selections → Bool → Selections × Bool
  | [], s, c => (s, c)
  | (id, set) :: rest, s, c =>
      if jsEqV (lookupVal s id) set then adjustFold rest s c
      else adjustFold rest (setKey s id set) true

/-- One resolver pass over all dependencies, threading the evolving
selections, the hidden-id set and the `changed` flag. -/
def onePass : List Dependency → PassState → PassState
  | [], st => st
  | dep :: rest, st =>
      if jsEqP (lookupVal st.selections dep.ifId) dep.ifEquals then
        let hidden := dep.thenHide.foldl insertUnique st.hidden
        let (s, c) := adjustFold dep.thenAdjust st.selections st.changed
        onePass rest ⟨s, hidden, c⟩
      else onePass rest st

/-- Up to `fuel` passes, stopping early after a pass that changed nothing. -/
def depsLoop (deps : List Dependency) : ℕ → Selections → List String →
    Selections × List String
  | 0, s, h => (s, h)
  | n + 1, s, h =>
      let st := onePass deps ⟨s, h, false⟩
      if st.changed then depsLoop deps n st.selections st.hidden
      else (st.selections, st.hidden)

/-- `applyDependencies(config, baseSelections)`: fixed-point iteration capped
at 6 passes. -/
def applyDependencies (config : Config) (baseSelections : Selections) :
    Selections × List String :=
  depsLoop config.dependencies 6 baseSelections []

/-! ## The core engine (`computeEstimate`), written as a chain of named
stages; each stage mirrors one block of the source function.  `computeCore`
takes the already-destructured head of `config.countries` (`defaultCountry`);
`computeEstimate` is `none` exactly when `config.countries` is empty, the one
input on which the TypeScript function throws. -/

/-- `String(rawSelections?._country ?? defaultCountry.code)`. -/
def countryCodeOf (defaultCountry : Country) (raw : Selections) : String :=
  jsToString (nvl (lookupVal raw "_country") (.str defaultCountry.code))

/-- `config.countries.find((c) => c.code === countryCode) ?? defaultCountry`. -/
def countryOf (config : Config) (defaultCountry : Country)
    (raw : Selections) : Country :=
  (config.countries.find?
    (fun c => c.code = countryCodeOf defaultCountry raw)).getD defaultCountry

/-- `country.currency ?? config.currencyDefault`. -/
def currencyOf (config : Config) (defaultCountry : Country)
    (raw : Selections) : String :=
  ((countryOf config defaultCountry raw).currency).getD config.currencyDefault

/-- `rawSelections?._rateMode ?? (config.ui?.pricing?.defaultRateMode ??
"country_roles")`, kept as the raw runtime value. -/
def rateModeValOf (config : Config) (raw : Selections) : Val :=
  nvl (lookupVal raw "_rateMode")
    (.str (config.uiDefaultRateMode.getD "country_roles"))

/-- `rateMode === "blended"`. -/
def useBlendedOf (config : Config) (raw : Selections) : Bool :=
  jsEqV (rateModeValOf config raw) (.str "blended")

/-- `Number(rawSelections?._blendedRate ?? config.ui?.pricing?.defaultBlendedRate
?? 0)`; `none` models a `NaN` result. -/
def blendedNumOf (config : Config) (raw : Selections) : Option ℚ :=
  toNum (nvl (lookupVal raw "_blendedRate")
    (match config.uiDefaultBlendedRate with
     | some q => .num q
     | none => .num 0))

/-- The `blendedRate` number as the runtime value stored into the seeded
selections. -/
def blendedValOf (config : Config) (raw : Selections) : Val :=
  match blendedNumOf config raw with
  | some q => .num q
  | none => .nan

/-- `{ _country: country.code, _rateMode: rateMode, _blendedRate: blendedRate,
...rawSelections }`: the spread keys win, so the three seeds only fill in
missing keys (first-match lookup reads `raw` first). -/
def seedBase (raw : Selections) (countryCode : String) (rateMode : Val)
    (blended : Val) : Selections :=
  raw ++ [("_country", .str countryCode), ("_rateMode", rateMode),
          ("_blendedRate", blended)]

/-- `if (seeded[lever.id] == null && lever.default != null)
seeded[lever.id] = lever.default`. -/
def seedDefaultStep (l : Lever) (s : Selections) : Selections :=
  match l.seedDefault with
  | some d => if lookupVal s l.id = Val.undef then setKey s l.id d else s
  | none => s

/-- `if (lever.type === "multiselect" && seeded[lever.id] == null)
seeded[lever.id] = []`. -/
def seedMsStep (l : Lever) (s : Selections) : Selections :=
  if l.isMultiselect ∧ lookupVal s l.id = Val.undef then setKey s l.id (.arr [])
  else s

/-- Both seeding assignments for one lever, in source order. -/
def seedStep (l : Lever) (s : Selections) : Selections :=
  seedMsStep l (seedDefaultStep l s)

/-- The per-lever default seeding loop: `seeded[id] ??= default` and
`seeded[id] ??= []` for multiselects. -/
def seedLevers : List Lever → Selections → Selections
  | [], s => s
  | l :: ls, s => seedLevers ls (seedStep l s)

/-- `if (seeded._roleAdjust == null) seeded._roleAdjust = {}`. -/
def seedRoleAdjust (s : Selections) : Selections :=
  if lookupVal s "_roleAdjust" = Val.undef then setKey s "_roleAdjust" (.obj [])
  else s

/-- The fully seeded selections (country/rate seeds, lever defaults,
`seeded._roleAdjust ??= {}`). -/
def seededOf (config : Config) (defaultCountry : Country)
    (raw : Selections) : Selections :=
  seedRoleAdjust (seedLevers config.levers
    (seedBase raw (countryOf config defaultCountry raw).code
      (rateModeValOf config raw) (blendedValOf config raw)))

/-- The resolver output on the seeded selections. -/
def resolvedOf (config : Config) (defaultCountry : Country)
    (raw : Selections) : Selections × List String :=
  applyDependencies config (seededOf config defaultCountry raw)

/-- The effective selections after dependency resolution. -/
def selOf (config : Config) (defaultCountry : Country)
    (raw : Selections) : Selections :=
  (resolvedOf config defaultCountry raw).1

/-- The hidden lever ids after dependency resolution. -/
def hiddenOf (config : Config) (defaultCountry : Country)
    (raw : Selections) : List String :=
  (resolvedOf config defaultCountry raw).2

/-- The skip conditions at the head of both lever loops:
`if (hiddenIds.has(lever.id)) continue; if (!visibleForLever(...)) continue`. -/
def leverActive (hidden : List String) (sel : Selections) (l : Lever) : Bool :=
  !(hidden.contains l.id) && visibleForLever l sel

/-- `key.split(".")[1]`. -/
def splitKey (k : String) : String :=
  ((k.splitOn ".").drop 1).headD ""

/-- The `hours.<role>` contributions of one option
(`hours[role] += Number(opt[key]) || 0` over `Object.keys(opt)`). -/
def optHours (o : OptionEntry) : Role → ℚ :=
  o.extra.foldl
    (fun acc kv =>
      if kv.1.startsWith "hours." then
        match parseRole (splitKey kv.1) with
        | some role => fun r =>
            acc r + (if r = role then (toNum kv.2).getD 0 else 0)
        | none => acc
      else acc)
    (fun _ => 0)

/-- The option the *hours* pass uses for a select lever:
`lever.options.find((o) => o.value === value) ?? lever.options[0]`. -/
def selectOptForHours (options : List OptionEntry) (value : Val) :
    Option OptionEntry :=
  match options.find? (fun o => jsEqV (.str o.value) value) with
  | some o => some o
  | none => options.head?

/-- The option the *multiplier* pass uses for a select lever:
`lever.options.find((o) => o.value === selections[lever.id])` — note the
missing `?? lever.options[0]` fallback. -/
def selectOptForMult (options : List OptionEntry) (value : Val) :
    Option OptionEntry :=
  options.find? (fun o => jsEqV (.str o.value) value)

/-- `if (lever.hoursPerUnit) addHours(hours, lever.hoursPerUnit, n)`. -/
def hpuPart (hoursPerUnit : Option (Role → Option ℚ)) (n : ℚ) : Role → ℚ :=
  match hoursPerUnit with
  | some m => addHours (fun _ => 0) m n
  | none => fun _ => 0

/-- `if (lever.hoursBase || lever.hoursPerExtraLocale) { addHours(...,
hoursBase, 1); if (n > 1) addHours(..., hoursPerExtraLocale, n - 1) }`. -/
def basePart (hoursBase hoursPerExtraLocale : Option (Role → Option ℚ))
    (n : ℚ) (h1 : Role → ℚ) : Role → ℚ :=
  if hoursBase.isSome ∨ hoursPerExtraLocale.isSome then
    let hb := addHours h1 (hoursBase.getD (fun _ => none)) 1
    if n > 1 then
      addHours hb (hoursPerExtraLocale.getD (fun _ => none)) (n - 1)
    else hb
  else h1

/-- `if (lever.hoursPerBatch && batchSize > 0) addHours(..., roleHours,
ceil(n / batchSize))` (0 batches when `n ≤ 0`). -/
def batchPart (hoursPerBatch : Option BatchRule) (n : ℚ) (h2 : Role → ℚ) :
    Role → ℚ :=
  match hoursPerBatch with
  | some b =>
      if b.batchSize > 0 then
        addHours h2 b.roleHours
          (if n > 0 then (((n / b.batchSize).ceil : ℤ) : ℚ) else 0)
      else h2
  | none => h2

/-- `clamp(Number(value ?? lever.default ?? 0), min, max)`. -/
def numberValue (sel : Selections) (id : String) (default min max : Option ℚ) :
    ℚ :=
  clamp
    (toNum (nvl (lookupVal sel id)
      (match default with
       | some d => .num d
       | none => .num 0)))
    min max

/-- The hour contribution of a single visible lever. -/
def hoursForLever (sel : Selections) (l : Lever) : Role → ℚ :=
  match l with
  | .number _ min max default hoursPerUnit hoursPerBatch hoursBase
      hoursPerExtraLocale =>
      let n := numberValue sel l.id default min max
      batchPart hoursPerBatch n
        (basePart hoursBase hoursPerExtraLocale n (hpuPart hoursPerUnit n))
  | .select _ options _ =>
      (match selectOptForHours options (lookupVal sel l.id) with
       | some o => optHours o
       | none => fun _ => 0)
  | .multiselect _ options =>
      let arr := match lookupVal sel l.id with
        | .arr vs => vs
        | _ => []
      arr.foldl
        (fun acc v =>
          match options.find? (fun o => jsEqV (.str o.value) v) with
          | some o => fun r => acc r + optHours o r
          | none => acc)
        (fun _ => 0)

/-- The hours-accumulation pass over the levers (skipping hidden and
invisible ones), starting from all-zero. -/
def accumHours (sel : Selections) (hidden : List String) :
    List Lever → Role → ℚ
  | [] => fun _ => 0
  | l :: ls =>
      fun r =>
        (if leverActive hidden sel l then hoursForLever sel l r else 0) +
          accumHours sel hidden ls r

/-- One `multiplier.*` contribution:
`multipliers[k] = (multipliers[k] ?? 1) * (isFinite(val) ? val : 1)`. -/
def mulStep (m : Multipliers) (k : String) (v : Val) : Multipliers :=
  mSet m k ((mGet m k).getD 1 * (match toNum v with
                                 | some q => q
                                 | none => 1))

/-- All `multiplier.*` contributions of one option. -/
def mulOption (m : Multipliers) (o : OptionEntry) : Multipliers :=
  o.extra.foldl
    (fun m kv =>
      if kv.1.startsWith "multiplier." then mulStep m (splitKey kv.1) kv.2
      else m)
    m

/-- The multiplier contributions of a single visible lever. -/
def mulLever (sel : Selections) (m : Multipliers) (l : Lever) : Multipliers :=
  match l with
  | .select _ options _ =>
      (match selectOptForMult options (lookupVal sel l.id) with
       | some o => mulOption m o
       | none => m)
  | .multiselect _ options =>
      let arr := match lookupVal sel l.id with
        | .arr vs => vs
        | _ => []
      arr.foldl
        (fun m v =>
          match options.find? (fun o => jsEqV (.str o.value) v) with
          | some o => mulOption m o
          | none => m)
        m
  | .number _ _ _ _ _ _ _ _ => m

/-- The multiplier-collection pass over the levers. -/
def collectMultipliers (sel : Selections) (hidden : List String) :
    List Lever → Multipliers → Multipliers
  | [], m => m
  | l :: ls, m =>
      collectMultipliers sel hidden ls
        (if leverActive hidden sel l then mulLever sel m l else m)

/-- The collected multipliers inside `computeEstimate`. -/
def multsOf (config : Config) (defaultCountry : Country)
    (raw : Selections) : Multipliers :=
  collectMultipliers (selOf config defaultCountry raw)
    (hiddenOf config defaultCountry raw) config.levers []

/-- The multiplier stage: collect over the levers and apply, where
application is skipped when the collected object is empty
(`if (Object.keys(multipliers).length)`). -/
def multStage (sel : Selections) (hidden : List String)
    (levers : List Lever) (hours : Role → ℚ) : Role → ℚ :=
  let m := collectMultipliers sel hidden levers []
  if m = ([] : Multipliers) then hours else applyMultiplierHours hours m

/-- Build hours before manual adjustments (the `preAdjust` snapshot). -/
def preAdjustOf (config : Config) (defaultCountry : Country)
    (raw : Selections) : Role → ℚ :=
  multStage (selOf config defaultCountry raw)
    (hiddenOf config defaultCountry raw) config.levers
    (accumHours (selOf config defaultCountry raw)
      (hiddenOf config defaultCountry raw) config.levers)

/-- `selections._roleAdjust ?? {}` (after resolution). -/
def roleAdjustValOf (config : Config) (defaultCountry : Country)
    (raw : Selections) : Val :=
  nvl (lookupVal (selOf config defaultCountry raw) "_roleAdjust") (.obj [])

/-- The effective delta for one role: `Number(roleAdjust[r] ?? 0)`, where a
`NaN` delta is skipped (adds nothing). -/
def roleDelta (roleAdjust : Val) (r : Role) : ℚ :=
  (toNum (nvl (objGet roleAdjust (roleKey r)) (.num 0))).getD 0

/-- The manual-adjustment stage: deltas are added verbatim to build roles
only. -/
def applyRoleAdjust (hours : Role → ℚ) (roleAdjust : Val) : Role → ℚ :=
  fun r =>
    if BUILD_ROLES.contains r then hours r + roleDelta roleAdjust r
    else hours r

/-- Hours after manual role adjustments. -/
def adjustedOf (config : Config) (defaultCountry : Country)
    (raw : Selections) : Role → ℚ :=
  applyRoleAdjust (preAdjustOf config defaultCountry raw)
    (roleAdjustValOf config defaultCountry raw)

/-- `rateFor(r)`: the blended rate in blended mode, else
`country.baseRates[r] ?? 0`.  (A blended rate whose `Number(...)` conversion
was `NaN` poisons every cost with `NaN` in JS; this finite model reads it as
0.) -/
def rateForOf (config : Config) (defaultCountry : Country)
    (raw : Selections) (r : Role) : ℚ :=
  if useBlendedOf config raw then (blendedNumOf config raw).getD 0
  else ((countryOf config defaultCountry raw).baseRates r).getD 0

/-- `subtotalHours`: build-role hour sum. -/
def subtotalHoursOf (config : Config) (defaultCountry : Country)
    (raw : Selections) : ℚ :=
  BUILD_ROLES.foldl
    (fun sum r => sum + adjustedOf config defaultCountry raw r) 0

/-- `subtotalCost`: build-role cost sum. -/
def subtotalCostOf (config : Config) (defaultCountry : Country)
    (raw : Selections) : ℚ :=
  BUILD_ROLES.foldl
    (fun sum r => sum + adjustedOf config defaultCountry raw r *
      rateForOf config defaultCountry raw r) 0

/-- `pmHours = subtotalHours * pmPercentOfBuild`. -/
def pmHoursOf (config : Config) (defaultCountry : Country)
    (raw : Selections) : ℚ :=
  subtotalHoursOf config defaultCountry raw * config.pmPercentOfBuild

/-- `qaHours = subtotalHours * qaPercentOfBuild`. -/
def qaHoursOf (config : Config) (defaultCountry : Country)
    (raw : Selections) : ℚ :=
  subtotalHoursOf config defaultCountry raw * config.qaPercentOfBuild

/-- `pmCost = pmHours * rateFor("pm")`. -/
def pmCostOf (config : Config) (defaultCountry : Country)
    (raw : Selections) : ℚ :=
  pmHoursOf config defaultCountry raw * rateForOf config defaultCountry raw .pm

/-- `qaCost = qaHours * rateFor("qa")`. -/
def qaCostOf (config : Config) (defaultCountry : Country)
    (raw : Selections) : ℚ :=
  qaHoursOf config defaultCountry raw * rateForOf config defaultCountry raw .qa

/-- Unrounded `p50` hours: `subtotalHours + pmHours + qaHours`. -/
def p50HoursRawOf (config : Config) (defaultCountry : Country)
    (raw : Selections) : ℚ :=
  subtotalHoursOf config defaultCountry raw +
    pmHoursOf config defaultCountry raw + qaHoursOf config defaultCountry raw

/-- Unrounded `p50` cost: `subtotalCost + pmCost + qaCost`. -/
def p50CostRawOf (config : Config) (defaultCountry : Country)
    (raw : Selections) : ℚ :=
  subtotalCostOf config defaultCountry raw +
    pmCostOf config defaultCountry raw + qaCostOf config defaultCountry raw

/-- `selections["risk_level"] ?? "medium"`. -/
def riskLevelValOf (config : Config) (defaultCountry : Country)
    (raw : Selections) : Val :=
  nvl (lookupVal (selOf config defaultCountry raw) "risk_level")
    (.str "medium")

/-- `contingencyRiskBands[riskLevel]` (own-property lookup keyed by the
string form of the risk-level value). -/
def riskBandGet (bands : RiskBands) (v : Val) : Option ℚ :=
  let key := jsToString v
  if key = "low" then bands.low
  else if key = "medium" then bands.medium
  else if key = "high" then bands.high
  else none

/-- `riskPct = contingencyRiskBands[riskLevel] ?? 0.12`. -/
def riskPctOf (config : Config) (defaultCountry : Country)
    (raw : Selections) : ℚ :=
  (riskBandGet config.contingencyRiskBands
    (riskLevelValOf config defaultCountry raw)).getD (12 / 100)

/-- `config.outputConfig?.rounding?.hours ?? 1`. -/
def hoursPlacesOf (config : Config) : ℤ := config.roundHours.getD 1

/-- `config.outputConfig?.rounding?.currency ?? 0`. -/
def moneyPlacesOf (config : Config) : ℤ := config.roundCurrency.getD 0

/-- `overheads` block of the result. -/
structure Overheads where
  pmHours : ℚ
  qaHours : ℚ
  pmCost : ℚ
  qaCost : ℚ
deriving DecidableEq, Repr

/-- A `p50`/`p80` band. -/
structure Band where
  hours : ℚ
  cost : ℚ
deriving DecidableEq, Repr

/-- The `debug` trace of the result. -/
structure DebugInfo where
  countryCode : String
  hiddenLeverIds : List String
  appliedMultipliers : Multipliers
  rateMode : Val
  blendedRate : Val
  preAdjustHours : Role → ℚ
  roleAdjust : Val

/-- `type EstimateResult`. -/
structure EstimateResult where
  hoursByRole : Role → ℚ
  costByRole : Role → ℚ
  subtotalHours : ℚ
  subtotalCost : ℚ
  overheads : Overheads
  p50 : Band
  p80 : Band
  currency : String
  currencySymbol : String
  debug : DebugInfo

/-- The assembled result (rounding stage included), given the non-empty head
of `config.countries`. -/
def computeCore (config : Config) (defaultCountry : Country)
    (raw : Selections) : EstimateResult :=
  let hp := hoursPlacesOf config
  let mp := moneyPlacesOf config
  let adj := adjustedOf config defaultCountry raw
  let rate := rateForOf config defaultCountry raw
  let pmH := pmHoursOf config defaultCountry raw
  let qaH := qaHoursOf config defaultCountry raw
  let pmC := pmCostOf config defaultCountry raw
  let qaC := qaCostOf config defaultCountry raw
  let riskPct := riskPctOf config defaultCountry raw
  { hoursByRole := fun r =>
      roundTo (if r = .pm then pmH else if r = .qa then qaH else adj r) hp
    costByRole := fun r =>
      roundTo (if r = .pm then pmC else if r = .qa then qaC else adj r * rate r)
        mp
    subtotalHours := roundTo (subtotalHoursOf config defaultCountry raw) hp
    subtotalCost := roundTo (subtotalCostOf config defaultCountry raw) mp
    overheads :=
      { pmHours := roundTo pmH hp
        qaHours := roundTo qaH hp
        pmCost := roundTo pmC mp
        qaCost := roundTo qaC mp }
    p50 :=
      { hours := roundTo (p50HoursRawOf config defaultCountry raw) hp
        cost := roundTo (p50CostRawOf config defaultCountry raw) mp }
    p80 :=
      { hours := roundTo
          (p50HoursRawOf config defaultCountry raw * (1 + riskPct)) hp
        cost := roundTo
          (p50CostRawOf config defaultCountry raw * (1 + riskPct)) mp }
    currency := currencyOf config defaultCountry raw
    currencySymbol :=
      currencySymbolFor config (currencyOf config defaultCountry raw)
    debug :=
      { countryCode := (countryOf config defaultCountry raw).code
        hiddenLeverIds := hiddenOf config defaultCountry raw
        appliedMultipliers := multsOf config defaultCountry raw
        rateMode := rateModeValOf config raw
        blendedRate :=
          if useBlendedOf config raw then blendedValOf config raw else Val.undef
        preAdjustHours := preAdjustOf config defaultCountry raw
        roleAdjust := roleAdjustValOf config defaultCountry raw } }

/-- `computeEstimate(config, rawSelections)`; `none` models the TypeError the
source throws when `config.countries` is empty. -/
def computeEstimate (config : Config) (raw : Selections) :
    Option EstimateResult :=
  match config.countries with
  | [] => none
  | defaultCountry :: _ => some (computeCore config defaultCountry raw)

/-- The lever ids `computeEstimate` treats as visible in both its hours and
multiplier passes (the `leverActive` filter on the resolved selections). -/
def ceVisibleIds (config : Config) (defaultCountry : Country)
    (raw : Selections) : List String :=
  (config.levers.filter
    (leverActive (hiddenOf config defaultCountry raw)
      (selOf config defaultCountry raw))).map Lever.id

/-- `visibleLeverIdSet(config, rawSelections)` from the source: seeds only the
lever defaults (not `_country`/`_rateMode`/`_blendedRate`/`_roleAdjust`),
resolves dependencies, and collects the visible ids in lever order. -/
def visibleLeverIdSet (config : Config) (raw : Selections) : List String :=
  config.levers.foldl
    (fun acc l =>
      if !((applyDependencies config (seedLevers config.levers raw)).2.contains
            l.id)
          && visibleForLever l
              (applyDependencies config (seedLevers config.levers raw)).1 then
        insertUnique acc l.id
      else acc)
    []

/-- `effectiveRateFor` from the rate-editor UI (`page.tsx`):
`Number(selections._rateOverrides?.[countryCode]?.[role] ?? baseRates[role]
?? 0)`.  This is the repository's only reader of `_rateOverrides`. -/
def effectiveRateFor (selections : Selections) (countryCode : String)
    (baseRates : Role → Option ℚ) (role : Role) : ℚ :=
  let ov := objGet (objGet (lookupVal selections "_rateOverrides") countryCode)
    (roleKey role)
  (toNum (nvl ov (match baseRates role with
                  | some q => .num q
                  | none => .num 0))).getD 0

/-! ## Concrete configurations used by the claims -/

/-- Base rates of the reference `US` country: frontend 50, every other role
0. -/
def usRates : Role → Option ℚ :=
  fun r => if r = .frontend then some 50 else some 0

/-- The reference `US` country of the spec's end-to-end scenario. -/
def usCountry : Country :=
  { code := "US", name := "United States", currency := some "USD"
    baseRates := usRates, tax := { vatIncluded := false, vatPercent := 0 } }

/-- The spec's reference lever: `number` lever `pages_unique`,
`hoursPerUnit = {frontend: 2}`, default 5. -/
def pagesLever : Lever :=
  .number { id := "pages_unique", label := "Unique pages", visibleWhen := [] }
    none none (some 5)
    (some fun r => if r = .frontend then some 2 else none)
    none none none

/-- The spec's reference configuration (one lever, one country,
`pmPercentOfBuild = qaPercentOfBuild = 0.1`, medium risk band 0.12). -/
def cfgRef : Config :=
  { currencyDefault := "USD", currencies := [], uiDefaultRateMode := none
    uiDefaultBlendedRate := none, countries := [usCountry]
    pmPercentOfBuild := 1/10, qaPercentOfBuild := 1/10
    contingencyRiskBands := { low := none, medium := some (12/100), high := none }
    levers := [pagesLever], dependencies := []
    roundHours := none, roundCurrency := none }

/-- The selections of the override scenario:
`_rateOverrides = { US: { frontend: 75 } }`. -/
def selOverride : Selections :=
  [("_rateOverrides", .obj [("US", .obj [("frontend", .num 75)])])]

/-- The override scenario after the override is deleted again
(the rate editor leaves an empty per-country object behind). -/
def selOverrideDeleted : Selections :=
  [("_rateOverrides", .obj [("US", .obj [])])]

/-- A select lever whose only option carries a negative `hours.frontend`. -/
def negHoursLever : Lever :=
  .select { id := "neg", label := "Negative", visibleWhen := [] }
    [{ value := "a", label := "A", extra := [("hours.frontend", .num (-3))] }]
    (some "a")

/-- `cfgRef` with the negative-hours lever. -/
def cfgNeg : Config := { cfgRef with levers := [negHoursLever] }

/-- A number lever contributing 0.44 frontend hours (`hoursPerUnit`), used to
expose the double-rounding in the claimed risk-band equation. -/
def smallLever : Lever :=
  .number { id := "x", label := "X", visibleWhen := [] }
    none none (some 1)
    (some fun r => if r = .frontend then some (11/25) else none)
    none none none

/-- `cfgRef` with the 0.44-hour lever and no pm/qa overhead. -/
def cfgSmall : Config :=
  { cfgRef with levers := [smallLever], pmPercentOfBuild := 0
                qaPercentOfBuild := 0 }

/-- A select option with both an `hours.frontend` and a
`multiplier.frontend` key. -/
def optBoth : OptionEntry :=
  { value := "a", label := "A"
    extra := [("hours.frontend", .num 3), ("multiplier.frontend", .num 2)] }

/-- A select lever with `optBoth` as its only option and no default, so the
current value matches no option. -/
def selLeverNoMatch : Lever :=
  .select { id := "sel", label := "Sel", visibleWhen := [] } [optBoth] none

/-- `cfgRef` with `selLeverNoMatch` as the only lever. -/
def cfgNoMatch : Config := { cfgRef with levers := [selLeverNoMatch] }

/-! ## C1 -/

/-- C1: on the spec's reference configuration with default selections,
`computeEstimate` returns frontend hours 10, build-subtotal hours 10, pm and
qa overhead hours 1, `p50 = {hours 12, cost 500}` and `p80.hours = 13.4`. -/
theorem C1_end_to_end :
    (computeEstimate cfgRef []).map (fun r => r.hoursByRole .frontend)
        = some 10 ∧
    (computeEstimate cfgRef []).map (fun r => r.subtotalHours) = some 10 ∧
    (computeEstimate cfgRef []).map (fun r => r.overheads.pmHours) = some 1 ∧
    (computeEstimate cfgRef []).map (fun r => r.overheads.qaHours) = some 1 ∧
    (computeEstimate cfgRef []).map (fun r => r.p50.hours) = some 12 ∧
    (computeEstimate cfgRef []).map (fun r => r.p50.cost) = some 500 ∧
    (computeEstimate cfgRef []).map (fun r => r.p80.hours) = some (134/10) :=
  ⟨by with_unfolding_all rfl, by with_unfolding_all rfl,
   by with_unfolding_all rfl, by with_unfolding_all rfl,
   by with_unfolding_all rfl, by with_unfolding_all rfl,
   by with_unfolding_all rfl⟩

/-! ## C2 -/

/-- C2: the claimed rate resolution is *not* what `computeEstimate` does.
With a country override `_rateOverrides.US.frontend = 75` in place, the UI's
`effectiveRateFor` resolves 75, but the engine still prices the 10 frontend
hours at the base rate 50 (`subtotalCost` 500, not 750): `computeEstimate`
never reads `_rateOverrides`, so the cost with the override, after deleting
the override, and without it are all identical.  (The round-trip half of the
claim therefore holds vacuously.) -/
theorem C2_rate_override_ignored :
    effectiveRateFor selOverride "US" usRates .frontend = 75 ∧
    (computeEstimate cfgRef selOverride).map (fun r => r.subtotalCost)
        = some 500 ∧
    (computeEstimate cfgRef selOverrideDeleted).map (fun r => r.subtotalCost)
        = some 500 ∧
    (computeEstimate cfgRef []).map (fun r => r.subtotalCost) = some 500 ∧
    (500 : ℚ) ≠ 10 * 75 :=
  ⟨by with_unfolding_all rfl, by with_unfolding_all rfl,
   by with_unfolding_all rfl, by with_unfolding_all rfl, by norm_num⟩

/-! ## C4, counterexample -/

/-- C4 counterexample: the non-negativity of post-multiplier hours fails for
an arbitrary configuration — a select option may carry a negative
`hours.<role>` value.  On `cfgNeg` with default selections the pre-adjustment
frontend hours are −3 < 0. -/
theorem C4_counterexample :
    (computeEstimate cfgNeg []).map (fun r => r.debug.preAdjustHours .frontend)
        = some (-3) ∧
    (-3 : ℚ) < 0 :=
  ⟨by with_unfolding_all rfl, by norm_num⟩

/-! ## C8, counterexample -/

/-- C8 counterexample: the claimed equation uses the *rounded* result field
`p50.hours`, but the engine scales the unrounded `p50`.  On `cfgSmall`
(0.44 build hours, no overhead, medium risk 12%) the result has
`p50.hours = 0.4` and `p80.hours = 0.5`, while
`round(p50.hours × 1.12, 1) = round(0.448, 1) = 0.4 ≠ 0.5`. -/
theorem C8_counterexample :
    (computeEstimate cfgSmall []).map (fun r => r.p50.hours) = some (2/5) ∧
    (computeEstimate cfgSmall []).map (fun r => r.p80.hours) = some (1/2) ∧
    riskPctOf cfgSmall usCountry [] = 12/100 ∧
    roundTo ((2/5) * (1 + 12/100)) (hoursPlacesOf cfgSmall) = 2/5 ∧
    (1/2 : ℚ) ≠ 2/5 :=
  ⟨by with_unfolding_all rfl, by with_unfolding_all rfl,
   by with_unfolding_all rfl, by with_unfolding_all rfl, by norm_num⟩

/-! ## C9, counterexample -/

/-- C9 counterexample: when a select lever's current value matches no option,
the hours pass falls back to `options[0]` but the multiplier pass applies
nothing.  On `cfgNoMatch` (option `a`: 3 frontend hours and a ×2 frontend
multiplier; current value undefined) the result counts the 3 hours without
the multiplier (3, not 6), and the collected multiplier object is empty —
`selectOptForHours` resolves the first option while `selectOptForMult`
resolves none. -/
theorem C9_counterexample :
    (computeEstimate cfgNoMatch []).map (fun r => r.hoursByRole .frontend)
        = some 3 ∧
    (computeEstimate cfgNoMatch []).map (fun r => r.debug.appliedMultipliers)
        = some [] ∧
    selectOptForHours [optBoth] Val.undef = some optBoth ∧
    selectOptForMult [optBoth] Val.undef = none ∧
    (3 : ℚ) ≠ 3 * 2 :=
  ⟨by with_unfolding_all rfl, by with_unfolding_all rfl,
   by with_unfolding_all rfl, by with_unfolding_all rfl, by norm_num⟩

/-! ## C6 -/

/-- C6: manual role adjustments are added verbatim.  For every configuration,
default country and raw selections, the post-adjustment hours of a build role
equal the pre-adjustment snapshot plus the delta read from
`selections._roleAdjust` (with no floor, so negative deltas pass through),
while the delta is ignored for pm and qa; the snapshot is reported unchanged
in `debug.preAdjustHours`. -/
theorem C6_manual_deltas_verbatim (cfg : Config) (c0 : Country)
    (raw : Selections) (r : Role) :
    adjustedOf cfg c0 raw r
        = preAdjustOf cfg c0 raw r
          + (if BUILD_ROLES.contains r then
              roleDelta (roleAdjustValOf cfg c0 raw) r else 0) ∧
    (computeCore cfg c0 raw).debug.preAdjustHours = preAdjustOf cfg c0 raw := by
  refine ⟨?_, rfl⟩
  simp only [adjustedOf, applyRoleAdjust]
  by_cases h : BUILD_ROLES.contains r = true
  · rw [if_pos h, if_pos h]
  · rw [if_neg h, if_neg h, add_zero]

/-! ## C7 -/

/-- An option with no `multiplier.*` keys. -/
def optionNoMultKeys (o : OptionEntry) : Bool :=
  o.extra.all (fun kv => !(kv.1.startsWith "multiplier."))

/-- A lever none of whose options carries a `multiplier.*` key (number levers
never contribute multipliers). -/
def leverNoMultKeys : Lever → Bool
  | .select _ opts _ => opts.all optionNoMultKeys
  | .multiselect _ opts => opts.all optionNoMultKeys
  | .number _ _ _ _ _ _ _ _ => true

theorem mulFold_no_keys (l : List (String × Val)) (m : Multipliers)
    (h : l.all (fun kv => !(kv.1.startsWith "multiplier.")) = true) :
    l.foldl
      (fun m kv =>
        if kv.1.startsWith "multiplier." then mulStep m (splitKey kv.1) kv.2
        else m)
      m = m := by
  induction l generalizing m with
  | nil => rfl
  | cons kv rest ih =>
      simp only [List.all_cons, Bool.and_eq_true, Bool.not_eq_true'] at h
      simpa [List.foldl_cons, h.1] using ih m (by simpa using h.2)

theorem mulOption_no_keys (m : Multipliers) (o : OptionEntry)
    (h : optionNoMultKeys o = true) : mulOption m o = m :=
  mulFold_no_keys o.extra m h

theorem mulSelect_no_keys (m : Multipliers) (opts : List OptionEntry)
    (v : Val) (h : opts.all optionNoMultKeys = true) :
    (match selectOptForMult opts v with
     | some o => mulOption m o
     | none => m) = m := by
  unfold selectOptForMult
  cases hf : opts.find? (fun o => jsEqV (.str o.value) v) with
  | none => rfl
  | some o =>
      exact mulOption_no_keys m o
        ((List.all_eq_true.mp h) o (List.mem_of_find?_eq_some hf))

theorem mulMsFold_no_keys (opts : List OptionEntry)
    (h : opts.all optionNoMultKeys = true) :
    ∀ (arr : List Val) (m : Multipliers),
    arr.foldl
      (fun m v =>
        match opts.find? (fun o => jsEqV (.str o.value) v) with
        | some o => mulOption m o
        | none => m)
      m = m := by
  intro arr
  induction arr with
  | nil => intro m; rfl
  | cons v rest ih =>
      intro m
      rw [List.foldl_cons]
      cases hf : opts.find? (fun o => jsEqV (.str o.value) v) with
      | none => simp only [hf]; exact ih m
      | some o =>
          simp only [hf]
          rw [mulOption_no_keys m o
            ((List.all_eq_true.mp h) o (List.mem_of_find?_eq_some hf))]
          exact ih m

theorem mulLever_no_keys (sel : Selections) (m : Multipliers) (L : Lever)
    (h : leverNoMultKeys L = true) : mulLever sel m L = m := by
  cases L with
  | number => rfl
  | select c opts d =>
      simp only [mulLever]
      exact mulSelect_no_keys m opts _ (by simpa [leverNoMultKeys] using h)
  | multiselect c opts =>
      simp only [mulLever]
      exact mulMsFold_no_keys opts (by simpa [leverNoMultKeys] using h) _ m

theorem collect_append (sel : Selections) (hidden : List String)
    (xs ys : List Lever) (m : Multipliers) :
    collectMultipliers sel hidden (xs ++ ys) m
      = collectMultipliers sel hidden ys (collectMultipliers sel hidden xs m) := by
  induction xs generalizing m with
  | nil => rfl
  | cons l ls ih => simp only [List.cons_append, collectMultipliers]; exact ih _

theorem collect_no_keys_last (sel : Selections) (hidden : List String)
    (levers : List Lever) (L : Lever) (m : Multipliers)
    (h : leverNoMultKeys L = true) :
    collectMultipliers sel hidden (levers ++ [L]) m
      = collectMultipliers sel hidden levers m := by
  rw [collect_append]
  simp only [collectMultipliers]
  by_cases ha : leverActive hidden sel L = true
  · rw [if_pos ha, mulLever_no_keys sel _ L h]
  · rw [if_neg ha]

/-- The multiselect lever with two options, each contributing
`multiplier.frontend = 1.1`. -/
def msLever : Lever :=
  .multiselect { id := "ms", label := "MS", visibleWhen := [] }
    [{ value := "a", label := "A"
       extra := [("multiplier.frontend", .num (11/10))] },
     { value := "b", label := "B"
       extra := [("multiplier.frontend", .num (11/10))] }]

/-- C7: multiplier contributions compose multiplicatively into a per-key
factor seeded at 1 — two options each contributing `multiplier.frontend` 1.1
collect to the combined factor 1.21; a non-finitely-parsed value multiplies
the running factor by the neutral 1; and appending a lever with no
`multiplier.*` keys leaves the entire multiplier stage (hence every role's
hours) unchanged. -/
theorem C7_multiplier_composition :
    mGet (collectMultipliers [("ms", .arr [.str "a", .str "b"])] [] [msLever]
        []) "frontend" = some (121/100) ∧
    (∀ (m : Multipliers) (k : String) (v : Val), toNum v = none →
        mulStep m k v = mSet m k ((mGet m k).getD 1)) ∧
    (∀ (sel : Selections) (hidden : List String) (levers : List Lever)
        (L : Lever) (hours : Role → ℚ), leverNoMultKeys L = true →
        multStage sel hidden (levers ++ [L]) hours
          = multStage sel hidden levers hours) := by
  refine ⟨by with_unfolding_all rfl, ?_, ?_⟩
  · intro m k v h
    simp [mulStep, h]
  · intro sel hidden levers L hours h
    unfold multStage
    rw [collect_no_keys_last sel hidden levers L [] h]

/-- Witness for C7: the hypotheses are satisfiable — `undefined` parses
non-finitely and multiplies by 1, and the reference number lever has no
multiplier keys, so appending it leaves the stage unchanged. -/
theorem C7_multiplier_composition_witness :
    toNum Val.undef = none ∧ leverNoMultKeys pagesLever = true ∧
    mulStep [] "frontend" Val.undef = mSet [] "frontend" ((mGet [] "frontend").getD 1) ∧
    multStage [] [] ([] ++ [pagesLever]) (fun _ => 0)
      = multStage [] [] [] (fun _ => 0) :=
  ⟨rfl, by with_unfolding_all rfl,
   C7_multiplier_composition.2.1 [] "frontend" Val.undef rfl,
   C7_multiplier_composition.2.2 [] [] [] pagesLever (fun _ => 0)
     (by with_unfolding_all rfl)⟩

/-! ## C8, amended -/

/-- C8 (amended): for every configuration, default country and selections,
the result's `p80` equals the *unrounded* `p50` (`subtotal + pm + qa` before
rounding) scaled by `1 + riskPct` and then rounded — not the rounded result
field `p50.hours` rescaled, which the counterexample refutes; `riskPct` is
looked up from `contingencyRiskBands` under the resolved `risk_level`
selection (default `"medium"`), and any risk level other than
low/medium/high misses the bands and falls back to the fixed 12%. -/
theorem C8_amended_band_scaling (cfg : Config) (c0 : Country)
    (raw : Selections) :
    (computeCore cfg c0 raw).p80.hours
        = roundTo (p50HoursRawOf cfg c0 raw * (1 + riskPctOf cfg c0 raw))
            (hoursPlacesOf cfg) ∧
    (computeCore cfg c0 raw).p80.cost
        = roundTo (p50CostRawOf cfg c0 raw * (1 + riskPctOf cfg c0 raw))
            (moneyPlacesOf cfg) ∧
    riskPctOf cfg c0 raw
        = (riskBandGet cfg.contingencyRiskBands
            (nvl (lookupVal (selOf cfg c0 raw) "risk_level")
              (.str "medium"))).getD (12/100) ∧
    (∀ v : Val, jsToString v ≠ "low" → jsToString v ≠ "medium" →
        jsToString v ≠ "high" →
        riskBandGet cfg.contingencyRiskBands v = none) := by
  refine ⟨rfl, rfl, rfl, ?_⟩
  intro v h1 h2 h3
  simp [riskBandGet, h1, h2, h3]

/-- Witness for C8 (amended): instantiated on the reference configuration
with the unrecognized risk level `"p99"`. -/
theorem C8_amended_band_scaling_witness :
    riskBandGet cfgRef.contingencyRiskBands (.str "p99") = none ∧
    (computeCore cfgRef usCountry []).p80.hours
      = roundTo (p50HoursRawOf cfgRef usCountry []
          * (1 + riskPctOf cfgRef usCountry [])) (hoursPlacesOf cfgRef) :=
  ⟨(C8_amended_band_scaling cfgRef usCountry []).2.2.2 (.str "p99")
      (by decide) (by decide) (by decide),
   (C8_amended_band_scaling cfgRef usCountry []).1⟩

/-! ## C9, amended -/

/-- C9 (amended): the two passes resolve the same option exactly when the
lever's current value matches one — if `find` succeeds, both
`selectOptForHours` and `selectOptForMult` return that first match; when it
fails, the hours pass falls back to `options[0]` but the multiplier pass
resolves nothing (shown by the counterexample). -/
theorem C9_amended_select_resolution (options : List OptionEntry) (v : Val)
    (h : (options.find? (fun o => jsEqV (.str o.value) v)).isSome = true) :
    selectOptForHours options v
        = options.find? (fun o => jsEqV (.str o.value) v) ∧
    selectOptForMult options v
        = options.find? (fun o => jsEqV (.str o.value) v) := by
  unfold selectOptForHours selectOptForMult
  cases hf : options.find? (fun o => jsEqV (.str o.value) v) with
  | some o => exact ⟨rfl, rfl⟩
  | none => rw [hf] at h; simp at h

/-- Witness for C9 (amended): with the matching value `"a"` both passes
resolve `optBoth`. -/
theorem C9_amended_select_resolution_witness :
    ([optBoth].find? (fun o => jsEqV (.str o.value) (.str "a"))).isSome
        = true ∧
    selectOptForHours [optBoth] (.str "a")
        = [optBoth].find? (fun o => jsEqV (.str o.value) (.str "a")) :=
  ⟨by with_unfolding_all rfl,
   (C9_amended_select_resolution [optBoth] (.str "a")
      (by with_unfolding_all rfl)).1⟩

/-! ## C3 -/

/-- One link of a forcing chain: when `a = k`, force `a := k + 1` (and hide
`"hideme"` from the first link). -/
def chainDep (k : ℕ) : Dependency :=
  { ifId := "a", ifEquals := .num k
    thenHide := if k = 1 then ["hideme"] else []
    thenAdjust := [("a", .num ((k : ℚ) + 1))], thenShow := [] }

/-- A 12-link forcing chain ordered so that each pass advances `a` by one:
the first run hits the 6-pass cap at `a = 7`, a rerun continues to 13. -/
def cfgChain : Config :=
  { cfgRef with
    levers := []
    dependencies := (List.range 12).reverse.map (fun i => chainDep (i + 1)) }

/-- C3 counterexample: dependency resolution is *not* idempotent in general.
On `cfgChain` from `{a: 1}` the capped first run stops at `a = 7` with hidden
set `["hideme"]`; re-running the resolver on its output advances to `a = 13`
and produces the empty hidden set — both the selections map and the hidden-id
set change. -/
theorem C3_counterexample :
    lookupVal (applyDependencies cfgChain [("a", .num 1)]).1 "a" = .num 7 ∧
    lookupVal (applyDependencies cfgChain
        ((applyDependencies cfgChain [("a", .num 1)]).1)).1 "a" = .num 13 ∧
    (applyDependencies cfgChain [("a", .num 1)]).2 = ["hideme"] ∧
    (applyDependencies cfgChain
        ((applyDependencies cfgChain [("a", .num 1)]).1)).2 = [] ∧
    Val.num 7 ≠ Val.num 13 :=
  ⟨by with_unfolding_all rfl, by with_unfolding_all rfl,
   by with_unfolding_all rfl, by with_unfolding_all rfl,
   by intro h; injection h with h'; exact absurd h' (by norm_num)⟩

theorem adjustFold_changed_mono (l : List (String × Val)) (s : Selections) :
    (adjustFold l s true).2 = true := by
  induction l generalizing s with
  | nil => rfl
  | cons a rest ih =>
      simp only [adjustFold]
      by_cases h : jsEqV (lookupVal s a.1) a.2 = true
      · rw [if_pos h]; exact ih s
      · rw [if_neg h]; exact ih _

theorem adjustFold_false (l : List (String × Val)) (s : Selections) (c : Bool)
    (h : (adjustFold l s c).2 = false) : (adjustFold l s c).1 = s := by
  induction l generalizing s c with
  | nil => rfl
  | cons a rest ih =>
      simp only [adjustFold] at h ⊢
      by_cases he : jsEqV (lookupVal s a.1) a.2 = true
      · rw [if_pos he] at h ⊢; exact ih s c h
      · rw [if_neg he] at h
        rw [adjustFold_changed_mono] at h
        cases h

theorem onePass_changed_mono (deps : List Dependency) (st : PassState)
    (h : st.changed = true) : (onePass deps st).changed = true := by
  induction deps generalizing st with
  | nil => exact h
  | cons d rest ih =>
      simp only [onePass]
      by_cases hc : jsEqP (lookupVal st.selections d.ifId) d.ifEquals = true
      · rw [if_pos hc]
        generalize hA : adjustFold d.thenAdjust st.selections st.changed = A
        obtain ⟨s', c'⟩ := A
        have hc' : c' = true := by
          have hm : (adjustFold d.thenAdjust st.selections st.changed).2
              = true := by
            rw [h]; exact adjustFold_changed_mono _ _
          rw [hA] at hm; exact hm
        apply ih
        exact hc'
      · rw [if_neg hc]; exact ih st h

theorem onePass_false (deps : List Dependency) (st : PassState)
    (h : (onePass deps st).changed = false) :
    (onePass deps st).selections = st.selections := by
  induction deps generalizing st with
  | nil => rfl
  | cons d rest ih =>
      simp only [onePass] at h ⊢
      by_cases hc : jsEqP (lookupVal st.selections d.ifId) d.ifEquals = true
      · rw [if_pos hc] at h ⊢
        generalize hA : adjustFold d.thenAdjust st.selections st.changed = A
          at h ⊢
        obtain ⟨s', c'⟩ := A
        dsimp only at h ⊢
        have hc' : c' = false := by
          by_contra hne
          have hct : c' = true := by revert hne; cases c' <;> simp
          have hmono := onePass_changed_mono rest
            ⟨s', List.foldl insertUnique st.hidden d.thenHide, c'⟩ hct
          rw [hmono] at h
          cases h
        have hs' : s' = st.selections := by
          have h2 : (adjustFold d.thenAdjust st.selections st.changed).2
              = false := by
            rw [hA]; exact hc'
          have hh := adjustFold_false d.thenAdjust st.selections st.changed h2
          rw [hA] at hh
          exact hh
        rw [ih _ h]
        exact hs'
      · rw [if_neg hc] at h ⊢; exact ih st h

theorem applyDependencies_at_fixpoint (cfg : Config) (σ : Selections)
    (h : (onePass cfg.dependencies ⟨σ, [], false⟩).changed = false) :
    (applyDependencies cfg σ).1 = σ := by
  show (depsLoop cfg.dependencies 6 σ []).1 = σ
  have e : depsLoop cfg.dependencies 6 σ []
      = (let st := onePass cfg.dependencies ⟨σ, [], false⟩;
         if st.changed then depsLoop cfg.dependencies 5 st.selections st.hidden
         else (st.selections, st.hidden)) := rfl
  rw [e]
  simp only [h, if_false, Bool.false_eq_true]
  exact onePass_false _ _ h

/-- C3 (amended): re-running `applyDependencies` on the selections it
produced returns those selections unchanged *provided the produced selections
are a fixed point of a resolver pass* — which is always the case when the
first run stopped before the 6-pass cap.  (When the cap was hit, both the
selections and the hidden-id set may differ on the rerun, and even for a
fixed point the rerun's hidden-id set keeps only the hide-lists of currently
satisfied dependencies — see the counterexample.) -/
theorem C3_amended_idempotence (cfg : Config) (s : Selections)
    (h : (onePass cfg.dependencies
        ⟨(applyDependencies cfg s).1, [], false⟩).changed = false) :
    (applyDependencies cfg ((applyDependencies cfg s).1)).1
      = (applyDependencies cfg s).1 :=
  applyDependencies_at_fixpoint cfg _ h

/-- Witness for C3 (amended): with no dependencies (the reference
configuration) every run is at a fixed point and the rerun is exact. -/
theorem C3_amended_idempotence_witness :
    (onePass cfgRef.dependencies
        ⟨(applyDependencies cfgRef []).1, [], false⟩).changed = false ∧
    (applyDependencies cfgRef ((applyDependencies cfgRef []).1)).1
      = (applyDependencies cfgRef []).1 :=
  ⟨rfl, C3_amended_idempotence cfgRef [] rfl⟩

/-! ## C4, amended -/

/-- Every role is in `ROLES`. -/
theorem mem_ROLES (r : Role) : r ∈ ROLES := by
  cases r <;> simp [ROLES]

/-- All present entries of a partial role map are non-negative. -/
def partNonneg (m : Role → Option ℚ) : Bool :=
  ROLES.all (fun r =>
    match m r with
    | some q => decide (0 ≤ q)
    | none => true)

theorem partNonneg_spec (m : Role → Option ℚ) (h : partNonneg m = true)
    (r : Role) (q : ℚ) (hq : m r = some q) : 0 ≤ q := by
  have := (List.all_eq_true.mp h) r (mem_ROLES r)
  rw [hq] at this
  exact of_decide_eq_true this

/-- All `hours.*` values of an option coerce to non-negative numbers. -/
def optionHoursSane (o : OptionEntry) : Bool :=
  o.extra.all (fun kv =>
    !(kv.1.startsWith "hours.") || decide (0 ≤ (toNum kv.2).getD 0))

/-- All finitely-parsed `multiplier.*` values of an option are
non-negative. -/
def optionMultSane (o : OptionEntry) : Bool :=
  o.extra.all (fun kv =>
    !(kv.1.startsWith "multiplier.") ||
      (match toNum kv.2 with
       | some q => decide (0 ≤ q)
       | none => true))

/-- The hour-saneness of one lever: number levers declare a non-negative
`min` (and, when present, a non-negative `max`) and non-negative hour rules;
select/multiselect options carry non-negative hour values and non-negative
finite multipliers. -/
def leverSane : Lever → Bool
  | .number _ min max _ hoursPerUnit hoursPerBatch hoursBase
      hoursPerExtraLocale =>
      (match min with
       | some m => decide (0 ≤ m)
       | none => false) &&
      (match max with
       | some mx => decide (0 ≤ mx)
       | none => true) &&
      (match hoursPerUnit with
       | some f => partNonneg f
       | none => true) &&
      (match hoursPerBatch with
       | some b => partNonneg b.roleHours
       | none => true) &&
      (match hoursBase with
       | some f => partNonneg f
       | none => true) &&
      (match hoursPerExtraLocale with
       | some f => partNonneg f
       | none => true)
  | .select _ opts _ => opts.all (fun o => optionHoursSane o && optionMultSane o)
  | .multiselect _ opts =>
      opts.all (fun o => optionHoursSane o && optionMultSane o)

/-- Hour-saneness of a whole configuration. -/
def hourSane (cfg : Config) : Bool := cfg.levers.all leverSane

theorem clamp_nonneg (x : Option ℚ) (m : ℚ) (mx : Option ℚ) (hm : 0 ≤ m)
    (hmx : ∀ q, mx = some q → 0 ≤ q) : 0 ≤ clamp x (some m) mx := by
  cases x with
  | none => simpa [clamp] using hm
  | some q =>
      simp only [clamp]
      by_cases h1 : q < m
      · rw [if_pos h1]; exact hm
      · rw [if_neg h1]
        cases mx with
        | none => exact le_of_not_lt (fun hq => h1 (lt_of_lt_of_le hq hm))
        | some mxv =>
            show 0 ≤ if q > mxv then mxv else q
            by_cases h2 : q > mxv
            · rw [if_pos h2]; exact hmx mxv rfl
            · rw [if_neg h2]
              exact le_of_not_lt (fun hq => h1 (lt_of_lt_of_le hq hm))

theorem addHours_nonneg (t : Role → ℚ) (add : Role → Option ℚ) (f : ℚ)
    (ht : ∀ r, 0 ≤ t r) (hadd : partNonneg add = true) (hf : 0 ≤ f) (r : Role) :
    0 ≤ addHours t add f r := by
  unfold addHours
  cases hq : add r with
  | none => simpa using ht r
  | some v =>
      have hv := partNonneg_spec add hadd r v hq
      have : 0 ≤ v * f := mul_nonneg hv hf
      have := add_nonneg (ht r) this
      simpa using this

theorem ceil_cast_nonneg (q : ℚ) (h : 0 < q) : (0:ℚ) ≤ ((q.ceil : ℤ) : ℚ) := by
  have hnum : 0 < q.num := Rat.num_pos.mpr h
  have hden : (0:ℤ) ≤ (q.den : ℤ) := Int.natCast_nonneg _
  unfold Rat.ceil
  by_cases hd : q.den = 1
  · rw [if_pos hd]; exact_mod_cast le_of_lt hnum
  · rw [if_neg hd]
    have h2 : (0:ℤ) ≤ q.num / (q.den : ℤ) + 1 := by
      have := Int.ediv_nonneg (le_of_lt hnum) hden
      omega
    exact_mod_cast h2

theorem optHoursFold_nonneg (l : List (String × Val)) (acc : Role → ℚ)
    (hacc : ∀ r, 0 ≤ acc r)
    (h : l.all (fun kv =>
        !(kv.1.startsWith "hours.") || decide (0 ≤ (toNum kv.2).getD 0))
      = true) :
    ∀ r, 0 ≤ (l.foldl
      (fun acc kv =>
        if kv.1.startsWith "hours." then
          match parseRole (splitKey kv.1) with
          | some role => fun r =>
              acc r + (if r = role then (toNum kv.2).getD 0 else 0)
          | none => acc
        else acc) acc) r := by
  induction l generalizing acc with
  | nil => exact hacc
  | cons kv rest ih =>
      simp only [List.all_cons, Bool.and_eq_true] at h
      rw [List.foldl_cons]
      apply ih
      · intro r
        by_cases hs : kv.1.startsWith "hours." = true
        · rw [if_pos hs]
          cases hp : parseRole (splitKey kv.1) with
          | none => exact hacc r
          | some role =>
              have hval : 0 ≤ (toNum kv.2).getD 0 := by
                rcases h.1 with h1
                rw [hs] at h1
                simpa using of_decide_eq_true (by simpa using h1)
              by_cases hr : r = role
              · simp only [hr, if_pos rfl]
                exact add_nonneg (hacc role) hval
              · simp only [if_neg hr, add_zero]
                exact hacc r
        · rw [if_neg hs]; exact hacc r
      · exact h.2

theorem optHours_nonneg (o : OptionEntry) (h : optionHoursSane o = true)
    (r : Role) : 0 ≤ optHours o r :=
  optHoursFold_nonneg o.extra (fun _ => 0) (fun _ => le_refl 0) h r

theorem hpuPart_nonneg (hoursPerUnit : Option (Role → Option ℚ)) (n : ℚ)
    (hn : 0 ≤ n)
    (h : (match hoursPerUnit with
          | some f => partNonneg f
          | none => true) = true) (r : Role) :
    0 ≤ hpuPart hoursPerUnit n r := by
  cases hu : hoursPerUnit with
  | none => simp [hpuPart]
  | some f =>
      rw [hu] at h
      exact addHours_nonneg _ f n (fun _ => le_refl 0) h hn r

theorem basePart_nonneg (hoursBase hoursPerExtraLocale :
    Option (Role → Option ℚ)) (n : ℚ) (h1 : Role → ℚ)
    (hh1 : ∀ r, 0 ≤ h1 r) (hn : 0 ≤ n)
    (hb : (match hoursBase with
           | some f => partNonneg f
           | none => true) = true)
    (hel : (match hoursPerExtraLocale with
            | some f => partNonneg f
            | none => true) = true) (r : Role) :
    0 ≤ basePart hoursBase hoursPerExtraLocale n h1 r := by
  unfold basePart
  by_cases hex : hoursBase.isSome ∨ hoursPerExtraLocale.isSome
  · rw [if_pos hex]
    have hbn : partNonneg (hoursBase.getD (fun _ => none)) = true := by
      cases hbb : hoursBase with
      | none => rfl
      | some f => rw [hbb] at hb; simpa using hb
    have heln : partNonneg (hoursPerExtraLocale.getD (fun _ => none))
        = true := by
      cases he : hoursPerExtraLocale with
      | none => rfl
      | some f => rw [he] at hel; simpa using hel
    have hbase : ∀ r, 0 ≤ addHours h1 (hoursBase.getD (fun _ => none)) 1 r :=
      fun r => addHours_nonneg h1 _ 1 hh1 hbn (by norm_num) r
    by_cases hn1 : n > 1
    · simp only [if_pos hn1]
      exact addHours_nonneg _ _ (n - 1) hbase heln (by linarith) r
    · simp only [if_neg hn1]
      exact hbase r
  · rw [if_neg hex]; exact hh1 r

theorem batchPart_nonneg (hoursPerBatch : Option BatchRule) (n : ℚ)
    (h2 : Role → ℚ) (hh2 : ∀ r, 0 ≤ h2 r)
    (hb : (match hoursPerBatch with
           | some b => partNonneg b.roleHours
           | none => true) = true) (r : Role) :
    0 ≤ batchPart hoursPerBatch n h2 r := by
  cases hpb : hoursPerBatch with
  | none => simp only [batchPart]; exact hh2 r
  | some b =>
      rw [hpb] at hb
      simp only [batchPart]
      by_cases hbs : b.batchSize > 0
      · rw [if_pos hbs]
        have hbatch : 0 ≤ (if n > 0 then (((n / b.batchSize).ceil : ℤ) : ℚ)
            else 0) := by
          by_cases hnp : n > 0
          · rw [if_pos hnp]
            exact ceil_cast_nonneg _ (div_pos hnp hbs)
          · rw [if_neg hnp]
        exact addHours_nonneg h2 b.roleHours _ hh2 hb hbatch r
      · rw [if_neg hbs]; exact hh2 r

theorem hoursForLever_nonneg (sel : Selections) (l : Lever)
    (h : leverSane l = true) (r : Role) : 0 ≤ hoursForLever sel l r := by
  cases l with
  | number c min max default hoursPerUnit hoursPerBatch hoursBase
      hoursPerExtraLocale =>
      simp only [leverSane, Bool.and_eq_true] at h
      obtain ⟨⟨⟨⟨⟨hmin, hmax⟩, hhpu⟩, hhpb⟩, hhb⟩, hhpel⟩ := h
      obtain ⟨m, hm, hm0⟩ : ∃ m, min = some m ∧ 0 ≤ m := by
        cases hmm : min with
        | none => rw [hmm] at hmin; cases hmin
        | some m =>
            rw [hmm] at hmin
            exact ⟨m, rfl, of_decide_eq_true hmin⟩
      have hmx : ∀ q, max = some q → 0 ≤ q := by
        intro q hq
        rw [hq] at hmax
        exact of_decide_eq_true hmax
      have hn : 0 ≤ numberValue sel
          (Lever.number c min max default hoursPerUnit hoursPerBatch hoursBase
            hoursPerExtraLocale).id default min max := by
        rw [hm]
        exact clamp_nonneg _ m max hm0 hmx
      exact batchPart_nonneg hoursPerBatch _ _
        (fun r => basePart_nonneg hoursBase hoursPerExtraLocale _ _
          (fun r => hpuPart_nonneg hoursPerUnit _ hn hhpu r) hn hhb hhpel r)
        hhpb r
  | select c opts d =>
      simp only [leverSane] at h
      simp only [hoursForLever]
      cases ho : selectOptForHours opts (lookupVal sel
          (Lever.select c opts d).id) with
      | none => exact le_refl 0
      | some o =>
          have hmem : o ∈ opts := by
            unfold selectOptForHours at ho
            cases hf : opts.find? (fun o => jsEqV (.str o.value)
                (lookupVal sel (Lever.select c opts d).id)) with
            | some o' =>
                rw [hf] at ho
                cases ho
                exact List.mem_of_find?_eq_some hf
            | none =>
                rw [hf] at ho
                exact List.mem_of_mem_head? (by simpa using ho)
          have := (List.all_eq_true.mp h) o hmem
          rw [Bool.and_eq_true] at this
          exact optHours_nonneg o this.1 r
  | multiselect c opts =>
      simp only [leverSane] at h
      simp only [hoursForLever]
      generalize (match lookupVal sel (Lever.multiselect c opts).id with
        | .arr vs => vs
        | _ => ([] : List Val)) = arr
      have : ∀ (acc : Role → ℚ), (∀ r, 0 ≤ acc r) →
          ∀ r, 0 ≤ (arr.foldl
            (fun acc v =>
              match opts.find? (fun o => jsEqV (.str o.value) v) with
              | some o => fun r => acc r + optHours o r
              | none => acc) acc) r := by
        induction arr with
        | nil => intro acc hacc r; exact hacc r
        | cons v rest ih =>
            intro acc hacc r
            rw [List.foldl_cons]
            cases hf : opts.find? (fun o => jsEqV (.str o.value) v) with
            | none => simp only [hf]; exact ih acc hacc r
            | some o =>
                simp only [hf]
                apply ih
                intro r'
                have hmem : o ∈ opts := List.mem_of_find?_eq_some hf
                have := (List.all_eq_true.mp h) o hmem
                rw [Bool.and_eq_true] at this
                exact add_nonneg (hacc r') (optHours_nonneg o this.1 r')
      exact this (fun _ => 0) (fun _ => le_refl 0) r

theorem accumHours_nonneg (sel : Selections) (hidden : List String)
    (ls : List Lever) (h : ls.all leverSane = true) (r : Role) :
    0 ≤ accumHours sel hidden ls r := by
  induction ls with
  | nil => exact le_refl 0
  | cons l rest ih =>
      simp only [List.all_cons, Bool.and_eq_true] at h
      simp only [accumHours]
      apply add_nonneg
      · by_cases ha : leverActive hidden sel l = true
        · rw [if_pos ha]; exact hoursForLever_nonneg sel l h.1 r
        · rw [if_neg ha]
      · exact ih h.2

/-- All collected multiplier factors are non-negative. -/
def multsNonneg (m : Multipliers) : Prop := ∀ kv ∈ m, 0 ≤ kv.2

theorem mGet_getD_nonneg (m : Multipliers) (k : String)
    (h : multsNonneg m) : 0 ≤ (mGet m k).getD 1 := by
  induction m with
  | nil => norm_num [mGet]
  | cons kv rest ih =>
      simp only [mGet]
      by_cases he : kv.1 = k
      · rw [if_pos he]
        exact h kv (List.mem_cons_self _ _)
      · rw [if_neg he]
        exact ih (fun p hp => h p (List.mem_cons_of_mem _ hp))

theorem mSet_nonneg (m : Multipliers) (k : String) (q : ℚ)
    (h : multsNonneg m) (hq : 0 ≤ q) : multsNonneg (mSet m k q) := by
  induction m with
  | nil =>
      intro p hp
      simp only [mSet, List.mem_singleton] at hp
      rw [hp]
      exact hq
  | cons kv rest ih =>
      intro p hp
      simp only [mSet] at hp
      by_cases he : kv.1 = k
      · rw [if_pos he] at hp
        rcases List.mem_cons.mp hp with h1 | h2
        · rw [h1]; exact hq
        · exact h p (List.mem_cons_of_mem _ h2)
      · rw [if_neg he] at hp
        rcases List.mem_cons.mp hp with h1 | h2
        · rw [h1]; exact h kv (List.mem_cons_self _ _)
        · exact ih (fun p' hp' => h p' (List.mem_cons_of_mem _ hp')) p h2

theorem mulStep_nonneg (m : Multipliers) (k : String) (v : Val)
    (h : multsNonneg m)
    (hv : ∀ q, toNum v = some q → 0 ≤ q) : multsNonneg (mulStep m k v) := by
  unfold mulStep
  apply mSet_nonneg _ _ _ h
  apply mul_nonneg (mGet_getD_nonneg m k h)
  cases ht : toNum v with
  | none => norm_num
  | some q => exact hv q ht

theorem mulFold_nonneg (l : List (String × Val)) (m : Multipliers)
    (h : multsNonneg m)
    (hl : l.all (fun kv =>
        !(kv.1.startsWith "multiplier.") ||
          (match toNum kv.2 with
           | some q => decide (0 ≤ q)
           | none => true)) = true) :
    multsNonneg (l.foldl
      (fun m kv =>
        if kv.1.startsWith "multiplier." then mulStep m (splitKey kv.1) kv.2
        else m) m) := by
  induction l generalizing m with
  | nil => exact h
  | cons kv rest ih =>
      simp only [List.all_cons, Bool.and_eq_true] at hl
      rw [List.foldl_cons]
      by_cases hs : kv.1.startsWith "multiplier." = true
      · rw [if_pos hs]
        refine ih _ ?_ hl.2
        apply mulStep_nonneg _ _ _ h
        intro q hq
        have h1 := hl.1
        rw [hs] at h1
        simp only [Bool.not_true, Bool.false_or] at h1
        rw [hq] at h1
        exact of_decide_eq_true h1
      · rw [if_neg hs]
        exact ih _ h hl.2

theorem mulOption_nonneg (m : Multipliers) (o : OptionEntry)
    (h : multsNonneg m) (ho : optionMultSane o = true) :
    multsNonneg (mulOption m o) := by
  unfold optionMultSane at ho
  exact mulFold_nonneg o.extra m h ho

theorem mulLever_nonneg (sel : Selections) (m : Multipliers) (l : Lever)
    (h : multsNonneg m) (hl : leverSane l = true) :
    multsNonneg (mulLever sel m l) := by
  cases l with
  | number => exact h
  | select c opts d =>
      simp only [leverSane] at hl
      simp only [mulLever]
      cases hf : selectOptForMult opts (lookupVal sel
          (Lever.select c opts d).id) with
      | none => exact h
      | some o =>
          have hmem : o ∈ opts := by
            unfold selectOptForMult at hf
            exact List.mem_of_find?_eq_some hf
          have := (List.all_eq_true.mp hl) o hmem
          rw [Bool.and_eq_true] at this
          exact mulOption_nonneg m o h this.2
  | multiselect c opts =>
      simp only [leverSane] at hl
      simp only [mulLever]
      generalize (match lookupVal sel (Lever.multiselect c opts).id with
        | .arr vs => vs
        | _ => ([] : List Val)) = arr
      induction arr generalizing m with
      | nil => exact h
      | cons v rest ih =>
          rw [List.foldl_cons]
          cases hf : opts.find? (fun o => jsEqV (.str o.value) v) with
          | none => simp only [hf]; exact ih m h
          | some o =>
              simp only [hf]
              apply ih
              have hmem : o ∈ opts := List.mem_of_find?_eq_some hf
              have := (List.all_eq_true.mp hl) o hmem
              rw [Bool.and_eq_true] at this
              exact mulOption_nonneg m o h this.2

theorem collectMultipliers_nonneg (sel : Selections) (hidden : List String)
    (ls : List Lever) (m : Multipliers) (h : multsNonneg m)
    (hl : ls.all leverSane = true) :
    multsNonneg (collectMultipliers sel hidden ls m) := by
  induction ls generalizing m with
  | nil => exact h
  | cons l rest ih =>
      simp only [List.all_cons, Bool.and_eq_true] at hl
      simp only [collectMultipliers]
      by_cases ha : leverActive hidden sel l = true
      · rw [if_pos ha]
        exact ih _ (mulLever_nonneg sel m l h hl.1) hl.2
      · rw [if_neg ha]
        exact ih _ h hl.2

theorem applyMultiplierHours_nonneg (hours : Role → ℚ) (m : Multipliers)
    (hh : ∀ r, 0 ≤ hours r) (hm : multsNonneg m) (r : Role) :
    0 ≤ applyMultiplierHours hours m r := by
  unfold applyMultiplierHours
  exact mul_nonneg (hh r)
    (mul_nonneg (mGet_getD_nonneg m _ hm) (mGet_getD_nonneg m "all" hm))

theorem multStage_nonneg (sel : Selections) (hidden : List String)
    (ls : List Lever) (hours : Role → ℚ) (hh : ∀ r, 0 ≤ hours r)
    (hl : ls.all leverSane = true) (r : Role) :
    0 ≤ multStage sel hidden ls hours r := by
  unfold multStage
  by_cases he : collectMultipliers sel hidden ls [] = ([] : Multipliers)
  · rw [if_pos he]; exact hh r
  · rw [if_neg he]
    exact applyMultiplierHours_nonneg hours _ hh
      (collectMultipliers_nonneg sel hidden ls [] (by intro p hp; cases hp) hl)
      r

/-- C4 (amended): the claim fails for arbitrary configurations (see the
counterexample: a negative `hours.*` value); for every *hour-sane*
configuration — non-negative hour rules and option hour values, number
levers with a non-negative declared `min` (and `max` when present), and
non-negative finite multipliers — every role's hour total after accumulation
over the visible levers and multiplier application (the pre-adjustment
snapshot) is non-negative, for every default country and raw selections. -/
theorem C4_amended_nonneg_hours (cfg : Config) (c0 : Country)
    (raw : Selections) (h : hourSane cfg = true) (r : Role) :
    0 ≤ preAdjustOf cfg c0 raw r := by
  unfold preAdjustOf
  exact multStage_nonneg _ _ _ _
    (fun r => accumHours_nonneg _ _ _ h r) h r

/-- The reference lever with an explicit `min = 0` bound (required by
hour-saneness). -/
def pagesLeverMin : Lever :=
  .number { id := "pages_unique", label := "Unique pages", visibleWhen := [] }
    (some 0) none (some 5)
    (some fun r => if r = .frontend then some 2 else none)
    none none none

/-- `cfgRef` with the bounded reference lever. -/
def cfgRefMin : Config := { cfgRef with levers := [pagesLeverMin] }

/-- Witness for C4 (amended): the reference configuration is hour-sane after
declaring `min = 0` on its number lever, and its pre-adjustment hours are
non-negative. -/
theorem C4_amended_nonneg_hours_witness :
    hourSane cfgRefMin = true ∧
    0 ≤ preAdjustOf cfgRefMin usCountry [] .frontend :=
  ⟨by with_unfolding_all rfl,
   C4_amended_nonneg_hours cfgRefMin usCountry []
     (by with_unfolding_all rfl) .frontend⟩

/-! ## Congruence machinery for C5 and C10

Two selection maps are interchangeable for the engine when they have the same
*bindings* on the keys of interest (JS distinguishes an absent key from a key
bound to `undefined` when spreading, so agreement is stated on the
binding-level lookup `lookupB`). -/

/-- Binding lookup: `none` when the key is absent (as opposed to bound to
`undefined`). -/
def lookupB : Selections → String → Option Val
  | [], _ => none
  | (k, v) :: rest, key => if k = key then some v else lookupB rest key

theorem lookupVal_eq_lookupB (s : Selections) (k : String) :
    lookupVal s k = (lookupB s k).getD Val.undef := by
  induction s with
  | nil => rfl
  | cons kv rest ih =>
      simp only [lookupVal, lookupB]
      by_cases he : kv.1 = k
      · rw [if_pos he, if_pos he]; rfl
      · rw [if_neg he, if_neg he]; exact ih

theorem lookupB_setKey_self (s : Selections) (k : String) (v : Val) :
    lookupB (setKey s k v) k = some v := by
  induction s with
  | nil => simp [setKey, lookupB]
  | cons kv rest ih =>
      simp only [setKey]
      by_cases he : kv.1 = k
      · rw [if_pos he]; simp [lookupB]
      · rw [if_neg he]; simp only [lookupB, if_neg he]; exact ih

theorem lookupB_setKey_other (s : Selections) (k : String) (v : Val)
    (k' : String) (h : k' ≠ k) :
    lookupB (setKey s k v) k' = lookupB s k' := by
  induction s with
  | nil =>
      simp only [setKey, lookupB]
      rw [if_neg (fun hh => h hh.symm)]
  | cons kv rest ih =>
      simp only [setKey]
      by_cases he : kv.1 = k
      · rw [if_pos he]
        simp only [lookupB]
        rw [if_neg (fun hh => h hh.symm),
            if_neg (fun hh => h (he.symm.trans hh).symm)]
      · rw [if_neg he]
        simp only [lookupB]
        by_cases h2 : kv.1 = k'
        · rw [if_pos h2, if_pos h2]
        · rw [if_neg h2, if_neg h2]; exact ih

/-- Agreement of two selection maps on all keys satisfying `P`. -/
def AgreeOn (P : String → Prop) (s s' : Selections) : Prop :=
  ∀ k, P k → lookupB s k = lookupB s' k

theorem AgreeOn.lookupVal {P : String → Prop} {s s' : Selections}
    (h : AgreeOn P s s') {k : String} (hk : P k) :
    Estimate.lookupVal s k = Estimate.lookupVal s' k := by
  rw [lookupVal_eq_lookupB, lookupVal_eq_lookupB, h k hk]

theorem AgreeOn.setKey {P : String → Prop} {s s' : Selections}
    (h : AgreeOn P s s') (k : String) (v : Val) :
    AgreeOn P (Estimate.setKey s k v) (Estimate.setKey s' k v) := by
  intro k' hk'
  by_cases he : k' = k
  · subst he; rw [lookupB_setKey_self, lookupB_setKey_self]
  · rw [lookupB_setKey_other _ _ _ _ he, lookupB_setKey_other _ _ _ _ he]
    exact h k' hk'

theorem lookupB_append (xs ys : Selections) (k : String) :
    lookupB (xs ++ ys) k
      = (match lookupB xs k with
         | some v => some v
         | none => lookupB ys k) := by
  induction xs with
  | nil => rfl
  | cons kv rest ih =>
      simp only [List.cons_append, lookupB]
      by_cases he : kv.1 = k
      · rw [if_pos he, if_pos he]
      · rw [if_neg he, if_neg he]; exact ih

theorem AgreeOn.append {P : String → Prop} {s s' : Selections}
    (h : AgreeOn P s s') (t : Selections) :
    AgreeOn P (s ++ t) (s' ++ t) := by
  intro k hk
  rw [lookupB_append, lookupB_append, h k hk]

/-- The dependency rules read (`if.id`) and write (`adjust` targets) only
`P`-keys. -/
def depsRespect (P : String → Prop) (deps : List Dependency) : Prop :=
  ∀ d ∈ deps, P d.ifId ∧ ∀ a ∈ d.thenAdjust, P a.1

theorem adjustFold_congr (P : String → Prop) (adj : List (String × Val))
    (hadj : ∀ a ∈ adj, P a.1) (s s' : Selections) (c : Bool)
    (h : AgreeOn P s s') :
    (adjustFold adj s c).2 = (adjustFold adj s' c).2 ∧
    AgreeOn P (adjustFold adj s c).1 (adjustFold adj s' c).1 := by
  induction adj generalizing s s' c with
  | nil => exact ⟨rfl, h⟩
  | cons a rest ih =>
      have hP : P a.1 := hadj a (List.mem_cons_self _ _)
      have heq : jsEqV (Estimate.lookupVal s a.1) a.2
          = jsEqV (Estimate.lookupVal s' a.1) a.2 := by
        rw [h.lookupVal hP]
      simp only [adjustFold]
      by_cases hb : jsEqV (Estimate.lookupVal s a.1) a.2 = true
      · rw [if_pos hb, if_pos (heq ▸ hb)]
        exact ih (fun a ha => hadj a (List.mem_cons_of_mem _ ha)) s s' c h
      · rw [if_neg hb, if_neg (fun hh => hb (heq ▸ hh))]
        exact ih (fun a ha => hadj a (List.mem_cons_of_mem _ ha)) _ _ true
          (h.setKey a.1 a.2)

theorem onePass_congr (P : String → Prop) (deps : List Dependency)
    (hdeps : depsRespect P deps) (s s' : Selections) (hid : List String)
    (c : Bool) (h : AgreeOn P s s') :
    AgreeOn P (onePass deps ⟨s, hid, c⟩).selections
      (onePass deps ⟨s', hid, c⟩).selections ∧
    (onePass deps ⟨s, hid, c⟩).hidden = (onePass deps ⟨s', hid, c⟩).hidden ∧
    (onePass deps ⟨s, hid, c⟩).changed = (onePass deps ⟨s', hid, c⟩).changed := by
  induction deps generalizing s s' hid c with
  | nil => exact ⟨h, rfl, rfl⟩
  | cons d rest ih =>
      have hP : P d.ifId := (hdeps d (List.mem_cons_self _ _)).1
      have hadj : ∀ a ∈ d.thenAdjust, P a.1 :=
        (hdeps d (List.mem_cons_self _ _)).2
      have hrest : depsRespect P rest :=
        fun d' hd' => hdeps d' (List.mem_cons_of_mem _ hd')
      have heq : jsEqP (Estimate.lookupVal s d.ifId) d.ifEquals
          = jsEqP (Estimate.lookupVal s' d.ifId) d.ifEquals := by
        rw [h.lookupVal hP]
      simp only [onePass]
      by_cases hb : jsEqP (Estimate.lookupVal s d.ifId) d.ifEquals = true
      · rw [if_pos hb, if_pos (heq ▸ hb)]
        obtain ⟨hc2, hs2⟩ := adjustFold_congr P d.thenAdjust hadj s s' c h
        rw [hc2]
        exact ih hrest _ _ _ _ hs2
      · rw [if_neg hb, if_neg (fun hh => hb (heq ▸ hh))]
        exact ih hrest s s' hid c h

theorem depsLoop_congr (P : String → Prop) (deps : List Dependency)
    (hdeps : depsRespect P deps) (fuel : ℕ) (s s' : Selections)
    (hid : List String) (h : AgreeOn P s s') :
    AgreeOn P (depsLoop deps fuel s hid).1 (depsLoop deps fuel s' hid).1 ∧
    (depsLoop deps fuel s hid).2 = (depsLoop deps fuel s' hid).2 := by
  induction fuel generalizing s s' hid with
  | zero => exact ⟨h, rfl⟩
  | succ n ih =>
      obtain ⟨hsel, hhid, hch⟩ := onePass_congr P deps hdeps s s' hid false h
      simp only [depsLoop]
      by_cases hc : (onePass deps ⟨s, hid, false⟩).changed = true
      · rw [if_pos hc, if_pos (hch ▸ hc), hhid]
        exact ih _ _ _ hsel
      · rw [if_neg hc, if_neg (fun hh => hc (hch ▸ hh))]
        exact ⟨hsel, hhid⟩

theorem applyDependencies_congr (P : String → Prop) (cfg : Config)
    (hdeps : depsRespect P cfg.dependencies) (s s' : Selections)
    (h : AgreeOn P s s') :
    AgreeOn P (applyDependencies cfg s).1 (applyDependencies cfg s').1 ∧
    (applyDependencies cfg s).2 = (applyDependencies cfg s').2 :=
  depsLoop_congr P cfg.dependencies hdeps 6 s s' [] h

/-- The lever reads only `P`-keys: its own id (value lookup) and its
`visibleWhen` rule ids. -/
def leverRespects (P : String → Prop) (l : Lever) : Prop :=
  P l.id ∧ ∀ ru ∈ l.visibleWhen, P ru.id

theorem visibleForLever_congr (P : String → Prop) (l : Lever)
    (s s' : Selections) (hl : ∀ ru ∈ l.visibleWhen, P ru.id)
    (h : AgreeOn P s s') : visibleForLever l s = visibleForLever l s' := by
  unfold visibleForLever
  have : ∀ (rules : List VisibleWhenRule), (∀ ru ∈ rules, P ru.id) →
      rules.all (fun r => jsEqP (lookupVal s r.id) r.equals)
        = rules.all (fun r => jsEqP (lookupVal s' r.id) r.equals) := by
    intro rules hr
    induction rules with
    | nil => rfl
    | cons ru rest ih =>
        simp only [List.all_cons]
        rw [h.lookupVal (hr ru (List.mem_cons_self _ _)),
            ih (fun x hx => hr x (List.mem_cons_of_mem _ hx))]
  exact this l.visibleWhen hl

theorem leverActive_congr (P : String → Prop) (l : Lever)
    (hidden : List String) (s s' : Selections)
    (hl : ∀ ru ∈ l.visibleWhen, P ru.id) (h : AgreeOn P s s') :
    leverActive hidden s l = leverActive hidden s' l := by
  unfold leverActive
  rw [visibleForLever_congr P l s s' hl h]

theorem hoursForLever_congr (P : String → Prop) (l : Lever)
    (s s' : Selections) (hP : P l.id) (h : AgreeOn P s s') :
    hoursForLever s l = hoursForLever s' l := by
  have hv := h.lookupVal hP
  cases l with
  | number c min max default hoursPerUnit hoursPerBatch hoursBase
      hoursPerExtraLocale =>
      simp only [hoursForLever, numberValue]
      rw [hv]
  | select c opts d => simp only [hoursForLever]; rw [hv]
  | multiselect c opts => simp only [hoursForLever]; rw [hv]

theorem mulLever_congr (P : String → Prop) (l : Lever) (s s' : Selections)
    (m : Multipliers) (hP : P l.id) (h : AgreeOn P s s') :
    mulLever s m l = mulLever s' m l := by
  have hv := h.lookupVal hP
  cases l with
  | number => rfl
  | select c opts d => simp only [mulLever]; rw [hv]
  | multiselect c opts => simp only [mulLever]; rw [hv]

theorem accumHours_congr (P : String → Prop) (ls : List Lever)
    (hidden : List String) (s s' : Selections)
    (hls : ∀ l ∈ ls, leverRespects P l) (h : AgreeOn P s s') :
    accumHours s hidden ls = accumHours s' hidden ls := by
  induction ls with
  | nil => rfl
  | cons l rest ih =>
      have hl := hls l (List.mem_cons_self _ _)
      funext r
      simp only [accumHours]
      rw [leverActive_congr P l hidden s s' hl.2 h,
          hoursForLever_congr P l s s' hl.1 h,
          ih (fun x hx => hls x (List.mem_cons_of_mem _ hx))]

theorem collectMultipliers_congr (P : String → Prop) (ls : List Lever)
    (hidden : List String) (s s' : Selections) (m : Multipliers)
    (hls : ∀ l ∈ ls, leverRespects P l) (h : AgreeOn P s s') :
    collectMultipliers s hidden ls m = collectMultipliers s' hidden ls m := by
  induction ls generalizing m with
  | nil => rfl
  | cons l rest ih =>
      have hl := hls l (List.mem_cons_self _ _)
      simp only [collectMultipliers]
      rw [leverActive_congr P l hidden s s' hl.2 h,
          mulLever_congr P l s s' m hl.1 h]
      exact ih _ (fun x hx => hls x (List.mem_cons_of_mem _ hx))

theorem seedDefaultStep_congr (P : String → Prop) (l : Lever)
    (s s' : Selections) (hP : P l.id) (h : AgreeOn P s s') :
    AgreeOn P (seedDefaultStep l s) (seedDefaultStep l s') := by
  have hv := h.lookupVal hP
  unfold seedDefaultStep
  cases l.seedDefault with
  | none => exact h
  | some d =>
      show AgreeOn P
        (if lookupVal s l.id = Val.undef then setKey s l.id d else s)
        (if lookupVal s' l.id = Val.undef then setKey s' l.id d else s')
      by_cases hu : lookupVal s l.id = Val.undef
      · rw [if_pos hu, if_pos (hv ▸ hu)]
        exact h.setKey l.id d
      · rw [if_neg hu, if_neg (fun hh => hu (hv ▸ hh))]
        exact h

theorem seedMsStep_congr (P : String → Prop) (l : Lever)
    (s s' : Selections) (hP : P l.id) (h : AgreeOn P s s') :
    AgreeOn P (seedMsStep l s) (seedMsStep l s') := by
  have hv := h.lookupVal hP
  unfold seedMsStep
  by_cases hm : l.isMultiselect ∧ lookupVal s l.id = Val.undef
  · rw [if_pos hm, if_pos ⟨hm.1, hv ▸ hm.2⟩]
    exact h.setKey l.id (.arr [])
  · rw [if_neg hm, if_neg (fun hh => hm ⟨hh.1, hv ▸ hh.2⟩)]
    exact h

theorem seedStep_congr (P : String → Prop) (l : Lever)
    (s s' : Selections) (hP : P l.id) (h : AgreeOn P s s') :
    AgreeOn P (seedStep l s) (seedStep l s') :=
  seedMsStep_congr P l _ _ hP (seedDefaultStep_congr P l s s' hP h)

theorem seedLevers_congr (P : String → Prop) (ls : List Lever)
    (s s' : Selections) (hls : ∀ l ∈ ls, P l.id) (h : AgreeOn P s s') :
    AgreeOn P (seedLevers ls s) (seedLevers ls s') := by
  induction ls generalizing s s' with
  | nil => exact h
  | cons l rest ih =>
      exact ih _ _ (fun x hx => hls x (List.mem_cons_of_mem _ hx))
        (seedStep_congr P l s s' (hls l (List.mem_cons_self _ _)) h)

/-! ## C5 -/

theorem lookupVal_setKey_other (s : Selections) (k : String) (v : Val)
    (k' : String) (h : k' ≠ k) :
    lookupVal (setKey s k v) k' = lookupVal s k' := by
  rw [lookupVal_eq_lookupB, lookupVal_eq_lookupB,
      lookupB_setKey_other _ _ _ _ h]

theorem seedDefaultStep_preserve (l : Lever) (s : Selections) (k : String)
    (h : lookupVal s k ≠ Val.undef) :
    lookupVal (seedDefaultStep l s) k = lookupVal s k := by
  unfold seedDefaultStep
  cases l.seedDefault with
  | none => rfl
  | some d =>
      show lookupVal (if lookupVal s l.id = Val.undef then setKey s l.id d else s)
          k = lookupVal s k
      by_cases hu : lookupVal s l.id = Val.undef
      · rw [if_pos hu]
        have hne : k ≠ l.id := fun he => h (by rw [he]; exact hu)
        exact lookupVal_setKey_other s l.id d k hne
      · rw [if_neg hu]

theorem seedMsStep_preserve (l : Lever) (s : Selections) (k : String)
    (h : lookupVal s k ≠ Val.undef) :
    lookupVal (seedMsStep l s) k = lookupVal s k := by
  unfold seedMsStep
  by_cases hm : l.isMultiselect ∧ lookupVal s l.id = Val.undef
  · rw [if_pos hm]
    have hne : k ≠ l.id := fun he => h (by rw [he]; exact hm.2)
    exact lookupVal_setKey_other s l.id _ k hne
  · rw [if_neg hm]

theorem seedStep_preserve (l : Lever) (s : Selections) (k : String)
    (h : lookupVal s k ≠ Val.undef) :
    lookupVal (seedStep l s) k = lookupVal s k := by
  unfold seedStep
  rw [seedMsStep_preserve l _ k
      (by rw [seedDefaultStep_preserve l s k h]; exact h),
    seedDefaultStep_preserve l s k h]

theorem seedLevers_preserve (ls : List Lever) (s : Selections) (k : String)
    (h : lookupVal s k ≠ Val.undef) :
    lookupVal (seedLevers ls s) k = lookupVal s k := by
  induction ls generalizing s with
  | nil => rfl
  | cons l rest ih =>
      show lookupVal (seedLevers rest (seedStep l s)) k = lookupVal s k
      rw [ih (seedStep l s) (by rw [seedStep_preserve l s k h]; exact h),
          seedStep_preserve l s k h]

theorem seedBase_agree (raw : Selections) (code : String) (rm bl : Val)
    (h1 : lookupVal raw "_country" ≠ Val.undef)
    (h2 : lookupVal raw "_rateMode" ≠ Val.undef)
    (h3 : lookupVal raw "_blendedRate" ≠ Val.undef) :
    AgreeOn (fun _ => True) (seedBase raw code rm bl) raw := by
  intro k _
  unfold seedBase
  rw [lookupB_append]
  cases hb : lookupB raw k with
  | some v => rfl
  | none =>
      have hk1 : "_country" ≠ k := by
        intro he
        rw [← he] at hb
        rw [lookupVal_eq_lookupB, hb] at h1
        exact h1 rfl
      have hk2 : "_rateMode" ≠ k := by
        intro he
        rw [← he] at hb
        rw [lookupVal_eq_lookupB, hb] at h2
        exact h2 rfl
      have hk3 : "_blendedRate" ≠ k := by
        intro he
        rw [← he] at hb
        rw [lookupVal_eq_lookupB, hb] at h3
        exact h3 rfl
      show lookupB [("_country", Val.str code), ("_rateMode", rm),
        ("_blendedRate", bl)] k = none
      simp only [lookupB]
      rw [if_neg hk1, if_neg hk2, if_neg hk3]

theorem insertUnique_mem (l : List String) (b a : String) :
    a ∈ insertUnique l b ↔ a ∈ l ∨ a = b := by
  unfold insertUnique
  by_cases hc : l.contains b
  · rw [if_pos hc]
    have hbl : b ∈ l := by simpa using hc
    constructor
    · exact Or.inl
    · rintro (h | h)
      · exact h
      · rw [h]; exact hbl
  · rw [if_neg hc]
    simp [List.mem_append]

theorem foldIns_mem (Q : Lever → Bool) (ls : List Lever) :
    ∀ (acc : List String) (id : String),
    (id ∈ ls.foldl
        (fun acc l => if Q l then insertUnique acc l.id else acc) acc)
      ↔ id ∈ acc ∨ ∃ l, l ∈ ls ∧ Q l = true ∧ l.id = id := by
  induction ls with
  | nil => simp
  | cons l rest ih =>
      intro acc id
      rw [List.foldl_cons]
      by_cases hq : Q l = true
      · rw [if_pos hq, ih, insertUnique_mem]
        constructor
        · rintro (⟨h | h⟩ | ⟨l', hl', hq', hid⟩)
          · exact Or.inl h
          · exact Or.inr ⟨l, List.mem_cons_self _ _, hq, h.symm⟩
          · exact Or.inr ⟨l', List.mem_cons_of_mem _ hl', hq', hid⟩
        · rintro (h | ⟨l', hl', hq', hid⟩)
          · exact Or.inl (Or.inl h)
          · rcases List.mem_cons.mp hl' with he | hm
            · rw [he] at hid; exact Or.inl (Or.inr hid.symm)
            · exact Or.inr ⟨l', hm, hq', hid⟩
      · rw [if_neg hq, ih]
        constructor
        · rintro (h | ⟨l', hl', hq', hid⟩)
          · exact Or.inl h
          · exact Or.inr ⟨l', List.mem_cons_of_mem _ hl', hq', hid⟩
        · rintro (h | ⟨l', hl', hq', hid⟩)
          · exact Or.inl h
          · rcases List.mem_cons.mp hl' with he | hm
            · rw [he] at hq'; exact absurd hq' hq
            · exact Or.inr ⟨l', hm, hq', hid⟩

theorem filterMap_mem (Q : Lever → Bool) (ls : List Lever) (id : String) :
    id ∈ (ls.filter Q).map Lever.id
      ↔ ∃ l, l ∈ ls ∧ Q l = true ∧ l.id = id := by
  simp only [List.mem_map, List.mem_filter]
  constructor
  · rintro ⟨l, ⟨hl, hq⟩, hid⟩
    exact ⟨l, hl, hq, hid⟩
  · rintro ⟨l, hl, hq, hid⟩
    exact ⟨l, ⟨hl, hq⟩, hid⟩

/-- C5 (amended): the UI helper and the engine can disagree when the raw
selections omit the reserved keys that only `computeEstimate` seeds (see the
counterexample); but whenever the raw selections themselves bind `_country`,
`_rateMode`, `_blendedRate` and `_roleAdjust` to non-null values,
`visibleLeverIdSet` contains exactly the lever ids that `computeEstimate`
treats as visible in its hours and multiplier passes. -/
theorem C5_amended_visibility (cfg : Config) (c0 : Country)
    (rest : List Country) (raw : Selections)
    (h0 : cfg.countries = c0 :: rest)
    (h1 : lookupVal raw "_country" ≠ Val.undef)
    (h2 : lookupVal raw "_rateMode" ≠ Val.undef)
    (h3 : lookupVal raw "_blendedRate" ≠ Val.undef)
    (h4 : lookupVal raw "_roleAdjust" ≠ Val.undef) :
    computeEstimate cfg raw = some (computeCore cfg c0 raw) ∧
    ∀ id, (id ∈ visibleLeverIdSet cfg raw ↔ id ∈ ceVisibleIds cfg c0 raw) := by
  constructor
  · unfold computeEstimate
    rw [h0]
  have hbase := seedBase_agree raw (countryOf cfg c0 raw).code
    (rateModeValOf cfg raw) (blendedValOf cfg raw) h1 h2 h3
  have hlev := seedLevers_congr (fun _ => True) cfg.levers _ _
    (fun _ _ => trivial) hbase
  have hseed : AgreeOn (fun _ => True) (seededOf cfg c0 raw)
      (seedLevers cfg.levers raw) := by
    unfold seededOf seedRoleAdjust
    have hra : lookupVal (seedLevers cfg.levers
        (seedBase raw (countryOf cfg c0 raw).code (rateModeValOf cfg raw)
          (blendedValOf cfg raw))) "_roleAdjust" ≠ Val.undef := by
      rw [hlev.lookupVal trivial,
          seedLevers_preserve cfg.levers raw "_roleAdjust" h4]
      exact h4
    rw [if_neg hra]
    exact hlev
  obtain ⟨hsel, hhid⟩ := applyDependencies_congr (fun _ => True) cfg
    (fun d _ => ⟨trivial, fun a _ => trivial⟩) _ _ hseed
  have hQ : ∀ l : Lever,
      (!((applyDependencies cfg (seedLevers cfg.levers raw)).2.contains l.id)
          && visibleForLever l
              (applyDependencies cfg (seedLevers cfg.levers raw)).1)
        = leverActive (hiddenOf cfg c0 raw) (selOf cfg c0 raw) l := by
    intro l
    unfold leverActive hiddenOf selOf resolvedOf
    rw [hhid, visibleForLever_congr (fun _ => True) l _ _
      (fun _ _ => trivial) hsel]
  intro id
  unfold visibleLeverIdSet ceVisibleIds
  rw [foldIns_mem (fun l =>
      !((applyDependencies cfg (seedLevers cfg.levers raw)).2.contains l.id)
        && visibleForLever l
            (applyDependencies cfg (seedLevers cfg.levers raw)).1)
      cfg.levers [] id,
    filterMap_mem (leverActive (hiddenOf cfg c0 raw) (selOf cfg c0 raw))
      cfg.levers id]
  constructor
  · rintro (h | ⟨l, hl, hq, hid⟩)
    · cases h
    · exact ⟨l, hl, by rw [← hQ l]; exact hq, hid⟩
  · rintro ⟨l, hl, hq, hid⟩
    exact Or.inr ⟨l, hl, by rw [hQ l]; exact hq, hid⟩

/-- A lever visible only when `_country = "US"`. -/
def visLever : Lever :=
  .number { id := "L", label := "L"
            visibleWhen := [{ id := "_country", equals := .str "US" }] }
    none none (some 1)
    (some fun r => if r = .frontend then some 1 else none)
    none none none

/-- `cfgRef` with the `_country`-guarded lever. -/
def cfgC5 : Config := { cfgRef with levers := [visLever] }

/-- C5 counterexample: `visibleLeverIdSet` does not seed
`_country`/`_rateMode`/`_blendedRate`/`_roleAdjust` the way `computeEstimate`
does.  With empty raw selections, the engine sees `_country = "US"` and
counts lever `L` (1 build hour, visible in its passes), while
`visibleLeverIdSet` sees `_country` undefined and excludes `L`. -/
theorem C5_counterexample :
    visibleLeverIdSet cfgC5 [] = [] ∧
    ceVisibleIds cfgC5 usCountry [] = ["L"] ∧
    cfgC5.countries = [usCountry] ∧
    (computeEstimate cfgC5 []).map (fun r => r.subtotalHours) = some 1 ∧
    ("L" ∈ ceVisibleIds cfgC5 usCountry []) ∧
    ¬("L" ∈ visibleLeverIdSet cfgC5 []) :=
  ⟨by with_unfolding_all rfl, by with_unfolding_all rfl, rfl,
   by with_unfolding_all rfl, by with_unfolding_all decide,
   by with_unfolding_all decide⟩

/-- Raw selections binding all four reserved keys. -/
def rawWithReserved : Selections :=
  [("_country", .str "US"), ("_rateMode", .str "country_roles"),
   ("_blendedRate", .num 0), ("_roleAdjust", .obj [])]

/-- Witness for C5 (amended): on `cfgC5` with raw selections that bind the
four reserved keys, the helper and the engine agree about lever `L`. -/
theorem C5_amended_visibility_witness :
    cfgC5.countries = usCountry :: [] ∧
    ("L" ∈ visibleLeverIdSet cfgC5 rawWithReserved
      ↔ "L" ∈ ceVisibleIds cfgC5 usCountry rawWithReserved) :=
  ⟨rfl,
   (C5_amended_visibility cfgC5 usCountry [] rawWithReserved rfl
     (by with_unfolding_all decide) (by with_unfolding_all decide)
     (by with_unfolding_all decide) (by with_unfolding_all decide)).2 "L"⟩

/-! ## C10 -/

/-- Two countries that agree on everything the engine reads — only the `tax`
field may differ. -/
def CountryTwin (c c' : Country) : Prop :=
  c.code = c'.code ∧ c.name = c'.name ∧ c.currency = c'.currency ∧
  c.baseRates = c'.baseRates

/-- The configuration never references `K` as a lever id, a `visibleWhen` id,
a dependency condition id or an adjust target. -/
def configAvoidsKey (cfg : Config) (K : String) : Bool :=
  cfg.levers.all (fun l =>
    (l.id != K) && l.visibleWhen.all (fun ru => ru.id != K)) &&
  cfg.dependencies.all (fun d =>
    (d.ifId != K) && d.thenAdjust.all (fun a => a.1 != K))

theorem configAvoidsKey_deps (cfg : Config) (K : String)
    (h : configAvoidsKey cfg K = true) :
    depsRespect (fun k => k ≠ K) cfg.dependencies := by
  unfold configAvoidsKey at h
  rw [Bool.and_eq_true] at h
  intro d hd
  have hh := (List.all_eq_true.mp h.2) d hd
  rw [Bool.and_eq_true] at hh
  refine ⟨by simpa [bne_iff_ne] using hh.1, ?_⟩
  intro a ha
  have := (List.all_eq_true.mp hh.2) a ha
  simpa [bne_iff_ne] using this

theorem configAvoidsKey_levers (cfg : Config) (K : String)
    (h : configAvoidsKey cfg K = true) :
    ∀ l ∈ cfg.levers, leverRespects (fun k => k ≠ K) l := by
  unfold configAvoidsKey at h
  rw [Bool.and_eq_true] at h
  intro l hl
  have hh := (List.all_eq_true.mp h.1) l hl
  rw [Bool.and_eq_true] at hh
  refine ⟨by simpa [bne_iff_ne] using hh.1, ?_⟩
  intro ru hru
  have := (List.all_eq_true.mp hh.2) ru hru
  simpa [bne_iff_ne] using this

theorem find_code_twin (cs cs' : List Country) (code : String)
    (h : List.Forall₂ CountryTwin cs cs') :
    (cs.find? (fun c => c.code = code) = none ∧
     cs'.find? (fun c => c.code = code) = none) ∨
    (∃ c c', cs.find? (fun c => c.code = code) = some c ∧
      cs'.find? (fun c => c.code = code) = some c' ∧ CountryTwin c c') := by
  induction h with
  | nil => exact Or.inl ⟨rfl, rfl⟩
  | @cons a b as bs htwin hrest ih =>
      by_cases hp : (a.code = code)
      · right
        refine ⟨a, b, ?_, ?_, htwin⟩
        · exact List.find?_cons_of_pos _ (by simpa using hp)
        · exact List.find?_cons_of_pos _ (by simp [← htwin.1, hp])
      · rw [List.find?_cons_of_neg _ (by simpa using hp),
            List.find?_cons_of_neg _ (by simp [← htwin.1, hp])]
        exact ih

theorem countryOf_twin (cfg : Config) (cs' : List Country)
    (c0 c0' : Country) (raw raw' : Selections)
    (hc : List.Forall₂ CountryTwin cfg.countries cs')
    (ht : CountryTwin c0 c0')
    (hcode : countryCodeOf c0 raw = countryCodeOf c0' raw') :
    CountryTwin (countryOf cfg c0 raw)
      (countryOf { cfg with countries := cs' } c0' raw') := by
  unfold countryOf
  rw [← hcode]
  show CountryTwin
    ((cfg.countries.find? (fun c => c.code = countryCodeOf c0 raw)).getD c0)
    ((cs'.find? (fun c => c.code = countryCodeOf c0 raw)).getD c0')
  rcases find_code_twin cfg.countries cs' (countryCodeOf c0 raw) hc with
    ⟨hn, hn'⟩ | ⟨c, c', hf, hf', htw⟩
  · rw [hn, hn']; exact ht
  · rw [hf, hf']; exact htw

theorem seedRoleAdjust_congr (P : String → Prop) (s s' : Selections)
    (hP : P "_roleAdjust") (h : AgreeOn P s s') :
    AgreeOn P (seedRoleAdjust s) (seedRoleAdjust s') := by
  have hv := h.lookupVal hP
  unfold seedRoleAdjust
  by_cases hu : lookupVal s "_roleAdjust" = Val.undef
  · rw [if_pos hu, if_pos (hv ▸ hu)]
    exact h.setKey _ _
  · rw [if_neg hu, if_neg (fun hh => hu (hv ▸ hh))]
    exact h

theorem computeCore_twin (cfg : Config) (cs' : List Country)
    (c0 c0' : Country) (raw raw' : Selections)
    (hc : List.Forall₂ CountryTwin cfg.countries cs')
    (ht : CountryTwin c0 c0')
    (hk : configAvoidsKey cfg "_taxOverrides" = true)
    (ha : AgreeOn (fun k => k ≠ "_taxOverrides") raw raw') :
    computeCore cfg c0 raw
      = computeCore { cfg with countries := cs' } c0' raw' := by
  have hls := configAvoidsKey_levers cfg "_taxOverrides" hk
  have e_code : countryCodeOf c0 raw = countryCodeOf c0' raw' := by
    unfold countryCodeOf
    rw [ha.lookupVal (by decide : ("_country" : String) ≠ "_taxOverrides"),
        ht.1]
  have e_ct := countryOf_twin cfg cs' c0 c0' raw raw' hc ht e_code
  have e_rm : rateModeValOf cfg raw
      = rateModeValOf { cfg with countries := cs' } raw' := by
    unfold rateModeValOf
    rw [ha.lookupVal (by decide : ("_rateMode" : String) ≠ "_taxOverrides")]
  have e_ub : useBlendedOf cfg raw
      = useBlendedOf { cfg with countries := cs' } raw' := by
    unfold useBlendedOf
    rw [e_rm]
  have e_bn : blendedNumOf cfg raw
      = blendedNumOf { cfg with countries := cs' } raw' := by
    unfold blendedNumOf
    rw [ha.lookupVal (by decide : ("_blendedRate" : String) ≠ "_taxOverrides")]
  have e_bv : blendedValOf cfg raw
      = blendedValOf { cfg with countries := cs' } raw' := by
    unfold blendedValOf
    rw [e_bn]
  have A_seed : AgreeOn (fun k => k ≠ "_taxOverrides")
      (seededOf cfg c0 raw)
      (seededOf { cfg with countries := cs' } c0' raw') := by
    unfold seededOf
    show AgreeOn _
      (seedRoleAdjust (seedLevers cfg.levers _))
      (seedRoleAdjust (seedLevers cfg.levers _))
    apply seedRoleAdjust_congr _ _ _ (by decide)
    apply seedLevers_congr _ cfg.levers _ _ (fun l hl => (hls l hl).1)
    rw [← e_ct.1, ← e_rm, ← e_bv]
    exact ha.append _
  obtain ⟨A_sel0, e_hid0⟩ := depsLoop_congr (fun k => k ≠ "_taxOverrides")
    cfg.dependencies (configAvoidsKey_deps cfg "_taxOverrides" hk) 6
    (seededOf cfg c0 raw)
    (seededOf { cfg with countries := cs' } c0' raw') [] A_seed
  have A_sel : AgreeOn (fun k => k ≠ "_taxOverrides")
      (selOf cfg c0 raw)
      (selOf { cfg with countries := cs' } c0' raw') := by
    unfold selOf resolvedOf applyDependencies
    exact A_sel0
  have e_hid : hiddenOf cfg c0 raw
      = hiddenOf { cfg with countries := cs' } c0' raw' := by
    unfold hiddenOf resolvedOf applyDependencies
    exact e_hid0
  have e_acc : accumHours (selOf cfg c0 raw) (hiddenOf cfg c0 raw) cfg.levers
      = accumHours (selOf { cfg with countries := cs' } c0' raw')
          (hiddenOf { cfg with countries := cs' } c0' raw')
          ({ cfg with countries := cs' } : Config).levers := by
    rw [← e_hid]
    show accumHours _ _ cfg.levers = accumHours _ _ cfg.levers
    exact accumHours_congr _ cfg.levers _ _ _ hls A_sel
  have e_mulraw : collectMultipliers (selOf cfg c0 raw)
      (hiddenOf cfg c0 raw) cfg.levers []
      = collectMultipliers (selOf { cfg with countries := cs' } c0' raw')
          (hiddenOf { cfg with countries := cs' } c0' raw')
          ({ cfg with countries := cs' } : Config).levers [] := by
    rw [← e_hid]
    show collectMultipliers _ _ cfg.levers []
      = collectMultipliers _ _ cfg.levers []
    exact collectMultipliers_congr _ cfg.levers _ _ _ [] hls A_sel
  have e_mul : multsOf cfg c0 raw
      = multsOf { cfg with countries := cs' } c0' raw' := by
    unfold multsOf
    exact e_mulraw
  have e_pre : preAdjustOf cfg c0 raw
      = preAdjustOf { cfg with countries := cs' } c0' raw' := by
    unfold preAdjustOf multStage
    rw [e_mulraw, e_acc]
  have e_rav : roleAdjustValOf cfg c0 raw
      = roleAdjustValOf { cfg with countries := cs' } c0' raw' := by
    unfold roleAdjustValOf
    rw [A_sel.lookupVal (by decide : ("_roleAdjust" : String) ≠ "_taxOverrides")]
  have e_adj : adjustedOf cfg c0 raw
      = adjustedOf { cfg with countries := cs' } c0' raw' := by
    unfold adjustedOf
    rw [e_pre, e_rav]
  have e_rate : rateForOf cfg c0 raw
      = rateForOf { cfg with countries := cs' } c0' raw' := by
    funext r
    unfold rateForOf
    rw [e_ub, e_bn, e_ct.2.2.2]
  have e_sh : subtotalHoursOf cfg c0 raw
      = subtotalHoursOf { cfg with countries := cs' } c0' raw' := by
    unfold subtotalHoursOf
    simp only [e_adj]
  have e_sc : subtotalCostOf cfg c0 raw
      = subtotalCostOf { cfg with countries := cs' } c0' raw' := by
    unfold subtotalCostOf
    simp only [e_adj, e_rate]
  have e_pmh : pmHoursOf cfg c0 raw
      = pmHoursOf { cfg with countries := cs' } c0' raw' := by
    unfold pmHoursOf
    rw [e_sh]
  have e_qah : qaHoursOf cfg c0 raw
      = qaHoursOf { cfg with countries := cs' } c0' raw' := by
    unfold qaHoursOf
    rw [e_sh]
  have e_pmc : pmCostOf cfg c0 raw
      = pmCostOf { cfg with countries := cs' } c0' raw' := by
    unfold pmCostOf
    rw [e_pmh, e_rate]
  have e_qac : qaCostOf cfg c0 raw
      = qaCostOf { cfg with countries := cs' } c0' raw' := by
    unfold qaCostOf
    rw [e_qah, e_rate]
  have e_p50h : p50HoursRawOf cfg c0 raw
      = p50HoursRawOf { cfg with countries := cs' } c0' raw' := by
    unfold p50HoursRawOf
    rw [e_sh, e_pmh, e_qah]
  have e_p50c : p50CostRawOf cfg c0 raw
      = p50CostRawOf { cfg with countries := cs' } c0' raw' := by
    unfold p50CostRawOf
    rw [e_sc, e_pmc, e_qac]
  have e_rl : riskLevelValOf cfg c0 raw
      = riskLevelValOf { cfg with countries := cs' } c0' raw' := by
    unfold riskLevelValOf
    rw [A_sel.lookupVal (by decide : ("risk_level" : String) ≠ "_taxOverrides")]
  have e_rp : riskPctOf cfg c0 raw
      = riskPctOf { cfg with countries := cs' } c0' raw' := by
    unfold riskPctOf
    rw [e_rl]
  have e_cur : currencyOf cfg c0 raw
      = currencyOf { cfg with countries := cs' } c0' raw' := by
    unfold currencyOf
    rw [e_ct.2.2.1]
  have e_sym : currencySymbolFor cfg (currencyOf cfg c0 raw)
      = currencySymbolFor { cfg with countries := cs' }
          (currencyOf { cfg with countries := cs' } c0' raw') := by
    rw [e_cur]
    with_unfolding_all rfl
  have e_hp : hoursPlacesOf cfg
      = hoursPlacesOf { cfg with countries := cs' } := rfl
  have e_mp : moneyPlacesOf cfg
      = moneyPlacesOf { cfg with countries := cs' } := rfl
  simp only [computeCore, e_adj, e_rate, e_sh, e_sc, e_pmh, e_qah, e_pmc,
    e_qac, e_p50h, e_p50c, e_rp, e_cur, e_sym, e_hid, e_mul, e_rm, e_ub,
    e_bv, e_pre, e_rav, e_hp, e_mp, e_ct.1]
  rfl

/-- A number lever whose id is the reserved key `_taxOverrides`. -/
def taxLever : Lever :=
  .number { id := "_taxOverrides", label := "T", visibleWhen := [] }
    none none (some 0)
    (some fun r => if r = .frontend then some 1 else none)
    none none none

/-- `cfgRef` with the `_taxOverrides`-named lever. -/
def cfgTax : Config := { cfgRef with levers := [taxLever] }

/-- C10 counterexample: the engine treats `_taxOverrides` as an ordinary
selection key, so a configuration may read it — with a lever whose id is
`_taxOverrides`, two runs whose inputs differ only in that reserved key
produce different results (1 vs 2 build hours). -/
theorem C10_counterexample :
    (computeEstimate cfgTax [("_taxOverrides", .num 1)]).map
        (fun r => r.subtotalHours) = some 1 ∧
    (computeEstimate cfgTax [("_taxOverrides", .num 2)]).map
        (fun r => r.subtotalHours) = some 2 ∧
    (1 : ℚ) ≠ 2 :=
  ⟨by with_unfolding_all rfl, by with_unfolding_all rfl, by norm_num⟩

/-- C10 (amended): the result of `computeEstimate` is always independent of
the countries' `tax` fields, and it is independent of the reserved selection
key `_taxOverrides` provided the configuration never references that key (as
a lever id, `visibleWhen` id, dependency condition id or adjust target —
without this proviso the counterexample applies): for any two configurations
that agree except on taxes (`CountryTwin` countrywise) and any two raw
selection maps whose bindings agree except at `_taxOverrides`, the entire
results are equal. -/
theorem C10_amended_tax_independence (cfg : Config) (cs' : List Country)
    (raw raw' : Selections)
    (hc : List.Forall₂ CountryTwin cfg.countries cs')
    (hk : configAvoidsKey cfg "_taxOverrides" = true)
    (ha : AgreeOn (fun k => k ≠ "_taxOverrides") raw raw') :
    computeEstimate cfg raw
      = computeEstimate { cfg with countries := cs' } raw' := by
  cases hcs : cfg.countries with
  | nil =>
      rw [hcs] at hc
      cases hc
      unfold computeEstimate
      rw [hcs]
  | cons c0 rest =>
      rw [hcs] at hc
      cases hc with
      | cons ht hrest =>
          unfold computeEstimate
          rw [hcs]
          exact congrArg some
            (computeCore_twin cfg _ c0 _ raw raw'
              (by rw [hcs]; exact List.Forall₂.cons ht hrest) ht hk ha)

/-- The reference country with a different tax block. -/
def usCountryTaxed : Country :=
  { usCountry with tax := { vatIncluded := true, vatPercent := 21 } }

/-- Witness for C10 (amended): changing the US tax block and adding a
`_taxOverrides` binding leaves the reference estimate unchanged. -/
theorem C10_amended_tax_independence_witness :
    configAvoidsKey cfgRef "_taxOverrides" = true ∧
    computeEstimate cfgRef [("pages_unique", .num 4)]
      = computeEstimate { cfgRef with countries := [usCountryTaxed] }
          [("pages_unique", .num 4), ("_taxOverrides", .str "edited")] :=
  ⟨by with_unfolding_all rfl,
   C10_amended_tax_independence cfgRef [usCountryTaxed]
     [("pages_unique", .num 4)]
     [("pages_unique", .num 4), ("_taxOverrides", .str "edited")]
     (List.Forall₂.cons ⟨rfl, rfl, rfl, rfl⟩ List.Forall₂.nil)
     (by with_unfolding_all rfl)
     (by
       intro k hk
       show lookupB [("pages_unique", Val.num 4)] k
         = lookupB [("pages_unique", Val.num 4),
             ("_taxOverrides", Val.str "edited")] k
       simp only [lookupB]
       by_cases hx : "pages_unique" = k
       · rw [if_pos hx, if_pos hx]
       · rw [if_neg hx, if_neg hx, if_neg (fun hh => hk hh.symm)])⟩

end Estimate
